import Mathlib

/-!
Verification of the grid-generation subsystem of the tidy3d SDK
(`tidy3d/components/grid/grid_spec.py`), as a shallow embedding in Lean 4.

Modelling conventions:
* Python floats are modelled by exact rationals `ℚ`; `numpy` 1D arrays by
  `List ℚ`.  The one place the code genuinely manipulates the float format
  (`np.nextafter(..., dtype=np.float32)` in `_postprocess_unaligned_grid`)
  is modelled by an explicit nonnegative slack parameter `eps` standing
  for the one-ulp outward relaxation of the simulation bounds.
* Raised exceptions are modelled by error values (`Except`/custom result
  types); Python `IndexError` crashes and non-terminating `while` loops of
  `_postprocess_unaligned_grid` get their own result constructors.
* The mesher (`tidy3d/components/grid/mesher.py`) and the geometry module
  (`Box.intersects`, `Box.bounds_union`, `Box.from_bounds`) are not part of
  the provided sources; where a claim needs them they are either abstract
  parameters or modelled from the spec (marked in doc comments).
-/

namespace GridSpecVerif

/-- numpy `np.isclose` with its default tolerances `rtol=1e-5`, `atol=1e-8`:
`|a - b| <= atol + rtol * |b|`, as used by `wavelength_from_sources` and by
the consistency check of `AbstractAutoGrid._make_coords_initial`. -/
def npIsClose (a b : ℚ) : Bool :=
  |a - b| ≤ 1 / 100000000 + (1 / 100000) * |b|

/-- Speed of light `C_0` in μm/s from `tidy3d/constants.py` (module not under
the provided sources; the literal value `2.99792458e14` is fixed by the spec's
`wavelength = C_0 / frequency` contract). -/
def C_0 : ℚ := 299792458000000

/-- Gap between the last two entries of a list (`bounds[-1] - bounds[-2]`);
`0` for lists shorter than 2 (never used in that case). -/
def lastGap (l : List ℚ) : ℚ :=
  match l.reverse with
  | a :: b :: _ => a - b
  | _ => 0

/-- Gap between the first two entries of a list (`bounds[1] - bounds[0]`);
`0` for lists shorter than 2 (never used in that case). -/
def firstGap (l : List ℚ) : ℚ :=
  match l with
  | a :: b :: _ => b - a
  | _ => 0

/-- `GridSpec1d._add_pml_to_bounds` (grid_spec.py lines 129-153): append
`num_layers.1` boundaries below, spaced by the first cell width, and
`num_layers.2` boundaries above, spaced by the last cell width; identity for
arrays with fewer than 2 entries. -/
def add_pml_to_bounds (num_layers : ℕ × ℕ) (bounds : List ℚ) : List ℚ :=
  if bounds.length < 2 then bounds
  else
    let first_step := firstGap bounds
    let last_step := lastGap bounds
    let b0 := bounds.headI
    let bn := bounds.getLastD 0
    let add_left := (List.range num_layers.1).map
      (fun i => b0 - first_step * ((num_layers.1 - i : ℕ) : ℚ))
    let add_right := (List.range num_layers.2).map
      (fun i => bn + last_step * ((i + 1 : ℕ) : ℚ))
    add_left ++ bounds ++ add_right

/-- `UniformGrid._make_coords_initial` (grid_spec.py lines 278-310):
`num_cells = max(1, ceil(size/dl))`, step `size/num_cells` when `size > 0`
else `dl`, boundaries `center - size/2 + i * step` for `i = 0..num_cells`. -/
def make_coords_initial_uniform (dl center size : ℚ) : List ℚ :=
  let num_cells : ℕ := max 1 (Int.toNat ⌈size / dl⌉)
  let dl_snapped := if 0 < size then size / (num_cells : ℚ) else dl
  (List.range (num_cells + 1)).map (fun i : ℕ => center - size / 2 + (i : ℚ) * dl_snapped)

/-- numpy `np.argmin(np.abs(center - bound_coords))` followed by indexing:
the value of the first entry of the list at minimal absolute distance from
`c` (`np.argmin` returns the first occurrence of the minimum). -/
def nearestVal (c : ℚ) : List ℚ → ℚ
  | [] => 0
  | a :: t => t.foldl (fun best x => if |c - x| < |c - best| then x else best) a

/-- Symmetry folding step of `GridSpec1d.make_coords` (grid_spec.py lines
92-98): shift so that the boundary nearest to the domain center lands exactly
on the center, keep the upper half, and mirror it below the center. -/
def symmetry_fold (center : ℚ) (bound_coords : List ℚ) : List ℚ :=
  let shift := center - nearestVal center bound_coords
  let shifted := bound_coords.map (fun b => b + shift)
  let kept := shifted.filter (fun b => decide (center ≤ b))
  ((kept.drop 1).reverse.map (fun b => 2 * center - b)) ++ kept

/-- Common tail of `GridSpec1d.make_coords` (grid_spec.py lines 91-101):
apply symmetry folding when the axis has nonzero symmetry, then append PML
boundaries; `bound_coords` is the output of the variant-specific
`_make_coords_initial`. -/
def make_coords_from_initial (bound_coords : List ℚ) (center : ℚ) (symAxis : ℤ)
    (num_pml : ℕ × ℕ) : List ℚ :=
  let bc := if symAxis ≠ 0 then symmetry_fold center bound_coords else bound_coords
  add_pml_to_bounds num_pml bc

/-- Result of `_postprocess_unaligned_grid`: a raised `SetupError`, a Python
`IndexError` crash (indexing `bound_coords[1]` when fewer than 2 boundaries
survive clipping, or an empty input array), a non-terminating extension loop
(possible only for a non-increasing input array, where the step used for
extension is `<= 0`), or a returned boundary array. -/
inductive PostResult where
  | setupError : PostResult
  | indexError : PostResult
  | nonterminating : PostResult
  | ok : List ℚ → PostResult
deriving DecidableEq, Repr

/-- numpy `np.searchsorted(l, v, side="right")` for a sorted array `l`:
the number of entries `<= v`. -/
def searchsorted_right (l : List ℚ) (v : ℚ) : ℕ :=
  l.countP (fun x => decide (x ≤ v))

/-- numpy slice `bound_coords[ind - 1 : ind + 1]` as used in the zero-size
branch of `_postprocess_unaligned_grid`, including Python's negative-index
wraparound when `ind = 0` (start index `-1`): the slice is then the whole
array for a 1-element array and empty otherwise. -/
def slice_around (l : List ℚ) (ind : ℕ) : List ℚ :=
  if ind = 0 then (if l.length = 1 then l else [])
  else (l.drop (ind - 1)).take 2

/-- Lower extension loop of `_postprocess_unaligned_grid` (lines 212-213):
`while bound_coords[0] - dl_min >= bound_min: prepend bound_coords[0] - dl_min`,
with explicit fuel. -/
def extendLowFuel (dl_min bound_min : ℚ) : ℕ → List ℚ → List ℚ
  | 0, l => l
  | fuel + 1, l =>
    match l with
    | [] => []
    | a :: rest =>
      if bound_min ≤ a - dl_min then
        extendLowFuel dl_min bound_min fuel ((a - dl_min) :: a :: rest)
      else a :: rest

/-- Lower extension loop with enough fuel to reach the loop's exit condition
whenever `0 < dl_min` (each iteration lowers the head by `dl_min`). -/
def extend_low (dl_min bound_min : ℚ) (l : List ℚ) : List ℚ :=
  match l with
  | [] => []
  | a :: _ => extendLowFuel dl_min bound_min (Int.toNat ⌈(a - bound_min) / dl_min⌉ + 1) l

/-- Upper extension loop of `_postprocess_unaligned_grid` (lines 214-215):
`while bound_coords[-1] + dl_max <= bound_max: append bound_coords[-1] + dl_max`,
with explicit fuel. -/
def extendHighFuel (dl_max bound_max : ℚ) : ℕ → List ℚ → List ℚ
  | 0, l => l
  | fuel + 1, l =>
    match l with
    | [] => []
    | _ :: _ =>
      if l.getLastD 0 + dl_max ≤ bound_max then
        extendHighFuel dl_max bound_max fuel (l ++ [l.getLastD 0 + dl_max])
      else l

/-- Upper extension loop with enough fuel to reach the loop's exit condition
whenever `0 < dl_max`. -/
def extend_high (dl_max bound_max : ℚ) (l : List ℚ) : List ℚ :=
  match l with
  | [] => []
  | _ :: _ =>
    extendHighFuel dl_max bound_max
      (Int.toNat ⌈(bound_max - l.getLastD 0) / dl_max⌉ + 1) l

/-- `GridSpec1d._postprocess_unaligned_grid` (grid_spec.py lines 155-225).
`eps >= 0` models the one-ulp outward relaxation
`np.nextafter(center +- size/2, +-inf, dtype=np.float32)` of the domain
bounds.  The steps mirror the source: overlap check on the raw array, the
zero-size branch returning `bound_coords[ind-1 : ind+1]`, clipping to the
relaxed bounds, extension by repeating the first/last step while the new
point stays within the relaxed bounds, and the optional
`machine_error_relaxation` fix-up using `np.isclose`. -/
def postprocess_unaligned_grid (eps center size : ℚ) (machine_error_relaxation : Bool)
    (bound_coords : List ℚ) : PostResult :=
  match bound_coords with
  | [] => PostResult.indexError
  | c0 :: _ =>
    let bound_min := center - size / 2 - eps
    let bound_max := center + size / 2 + eps
    if bound_max < c0 ∨ bound_min > bound_coords.getLastD 0 then PostResult.setupError
    else if size = 0 then
      let ind0 := searchsorted_right bound_coords center
      let ind := if bound_coords.length ≤ ind0 then bound_coords.length - 1 else ind0
      PostResult.ok (slice_around bound_coords ind)
    else
      let clipped := (bound_coords.filter (fun x => decide (x ≤ bound_max))).filter
        (fun x => decide (bound_min ≤ x))
      match clipped with
      | a :: b :: _ =>
        let dl_min := b - a
        let dl_max := lastGap clipped
        if dl_min ≤ 0 ∨ dl_max ≤ 0 then PostResult.nonterminating
        else
          let ext := extend_high dl_max bound_max (extend_low dl_min bound_min clipped)
          let ext2 :=
            if machine_error_relaxation then
              let e1 := if npIsClose (ext.headI - dl_min) bound_min
                then (ext.headI - dl_min) :: ext else ext
              if npIsClose (e1.getLastD 0 + dl_max) bound_max
                then e1 ++ [e1.getLastD 0 + dl_max] else e1
            else ext
          PostResult.ok ext2
      | _ => PostResult.indexError

/-- `CustomGrid._make_coords_initial` (grid_spec.py lines 429-468): cumulative
sum of the step list, anchored at `custom_offset` when given, else centered on
the simulation center; then postprocessed for domain alignment with
`machine_error_relaxation` exactly when `custom_offset` is provided. -/
def make_coords_initial_custom (dl : List ℚ) (custom_offset : Option ℚ)
    (eps center size : ℚ) : PostResult :=
  let bound_coords0 := dl.scanl (fun a b => a + b) 0
  let bound_coords :=
    match custom_offset with
    | none => bound_coords0.map (fun x => x + (center - bound_coords0.getLastD 0 / 2))
    | some off => bound_coords0.map (fun x => x + off)
  postprocess_unaligned_grid eps center size custom_offset.isSome bound_coords

/-- numpy fancy assignment `bound_coords[[0, -1]] = domain_bounds` of
grid_spec.py line 650: overwrite the first and last entry (for a 1-entry
array index 0 is written twice, last write wins). -/
def snap_ends (l : List ℚ) (lo hi : ℚ) : List ℚ :=
  match l with
  | [] => []
  | [_] => [hi]
  | _ :: _ :: _ => lo :: ((l.drop 1).dropLast ++ [hi])

/-- Absolute boundaries `np.append(0.0, np.cumsum(dl)) + interval_coords[0]`
(grid_spec.py lines 638-639). -/
def auto_grid_bound_coords (dl_concat : List ℚ) (interval_start : ℚ) : List ℚ :=
  (dl_concat.scanl (fun a b => a + b) 0).map (fun x => x + interval_start)

/-- Tail of `AbstractAutoGrid._make_coords_initial` (grid_spec.py lines
637-652): assemble absolute boundaries from the concatenated per-interval step
lists produced by the mesher (`dl_concat`, the mesher module itself is not
under the provided sources) starting at `interval_start`, then check both ends
against the symmetry-domain bounds with `np.isclose` — raising `SetupError`
when either end is off — and snap the ends exactly onto the domain bounds
otherwise. -/
def auto_grid_finalize (dl_concat : List ℚ) (interval_start domain_lo domain_hi : ℚ) :
    Except Unit (List ℚ) :=
  let bound_coords := auto_grid_bound_coords dl_concat interval_start
  if npIsClose bound_coords.headI domain_lo
      && npIsClose (bound_coords.getLastD 0) domain_hi then
    Except.ok (snap_ends bound_coords domain_lo domain_hi)
  else Except.error ()

/-! Geometry data model: rational 3-vectors, optionally-infinite 3-vectors
(`none` = infinite extent), axis-aligned boxes and structures. -/

structure V3 where
  x : ℚ
  y : ℚ
  z : ℚ
deriving DecidableEq, Repr

structure OV3 where
  x : Option ℚ
  y : Option ℚ
  z : Option ℚ
deriving DecidableEq, Repr

def V3.nth (v : V3) : Fin 3 → ℚ
  | ⟨0, _⟩ => v.x
  | ⟨1, _⟩ => v.y
  | ⟨2, _⟩ => v.z

def OV3.nth (s : OV3) : Fin 3 → Option ℚ
  | ⟨0, _⟩ => s.x
  | ⟨1, _⟩ => s.y
  | ⟨2, _⟩ => s.z

def V3.toOV3 (v : V3) : OV3 := ⟨some v.x, some v.y, some v.z⟩

/-- `Box.unpop_axis(ax_coord, (p, p), axis)` specialised to identical planar
components, for plain rational coordinates. -/
def V3.unpop (ax p : ℚ) : Fin 3 → V3
  | ⟨0, _⟩ => ⟨ax, p, p⟩
  | ⟨1, _⟩ => ⟨p, ax, p⟩
  | ⟨2, _⟩ => ⟨p, p, ax⟩

/-- `Box.unpop_axis(ax_coord, (p, p), axis)` for optional coordinates
(`None` entries of a `CoordinateOptional`, or infinite sizes). -/
def OV3.unpop (ax p : Option ℚ) : Fin 3 → OV3
  | ⟨0, _⟩ => ⟨ax, p, p⟩
  | ⟨1, _⟩ => ⟨p, ax, p⟩
  | ⟨2, _⟩ => ⟨p, p, ax⟩

/-- Axis-aligned box: rational center, per-axis size with `none` standing for
an infinite extent (`td.inf`). -/
structure BoxE where
  center : V3
  size : OV3
deriving DecidableEq, Repr

/-- Lower bound of a box along an axis; `none` = `-inf`. -/
def BoxE.lo (b : BoxE) (i : Fin 3) : Option ℚ :=
  (b.size.nth i).map (fun s => b.center.nth i - s / 2)

/-- Upper bound of a box along an axis; `none` = `+inf`. -/
def BoxE.hi (b : BoxE) (i : Fin 3) : Option ℚ :=
  (b.size.nth i).map (fun s => b.center.nth i + s / 2)

/-- `StructureType = Union[Structure, MeshOverrideStructure]`: a physical
`Structure` (its medium plays no role in the claims below) or a
`MeshOverrideStructure` with per-axis optional step size `dl`, and the
`shadow` and `drop_outside_sim` flags. -/
inductive StructureE where
  | physical (geometry : BoxE)
  | meshOverride (geometry : BoxE) (dl : OV3) (shadow : Bool) (drop_outside_sim : Bool)
deriving DecidableEq, Repr

def StructureE.geometryOf : StructureE → BoxE
  | StructureE.physical g => g
  | StructureE.meshOverride g _ _ _ => g

/-- `shadow` flag of a structure; a physical `Structure` always shadows, the
accessor is only ever applied to `MeshOverrideStructure`s in the claims. -/
def StructureE.shadowOf : StructureE → Bool
  | StructureE.physical _ => true
  | StructureE.meshOverride _ _ sh _ => sh

def StructureE.dlOf : StructureE → OV3
  | StructureE.physical _ => ⟨none, none, none⟩
  | StructureE.meshOverride _ d _ _ => d

def StructureE.isMeshOverride : StructureE → Bool
  | StructureE.physical _ => false
  | StructureE.meshOverride _ _ _ _ => true

/-! Symmetry-domain construction and structure filtering of
`AbstractAutoGrid._make_coords_initial` (grid_spec.py lines 584-608). -/

/-- Per-axis symmetry halving (lines 590-593): shift the center to the
positive half and halve the size on every axis with nonzero symmetry. -/
def halveAxis (c s : ℚ) (sym : ℤ) : ℚ × ℚ :=
  if sym ≠ 0 then (c + s / 4, s / 2) else (c, s)

/-- The `symmetry_domain` box (center, size) built from the simulation box. -/
def symmetry_domain (c s : V3) (sym : ℤ × ℤ × ℤ) : V3 × V3 :=
  let hx := halveAxis c.x s.x sym.1
  let hy := halveAxis c.y s.y sym.2.1
  let hz := halveAxis c.z s.z sym.2.2
  (⟨hx.1, hy.1, hz.1⟩, ⟨hx.2, hy.2, hz.2⟩)

/-- Test `a > b` for an optional lower bound `a` (`none` = `-inf`, never
greater). -/
def optGTlo (a : Option ℚ) (b : ℚ) : Bool :=
  match a with
  | none => false
  | some q => decide (b < q)

/-- Test `a < b` for an optional upper bound `a` (`none` = `+inf`, never
smaller). -/
def optLThi (a : Option ℚ) (b : ℚ) : Bool :=
  match a with
  | none => false
  | some q => decide (q < b)

/-- Drop test of the filtering loop (lines 599-607).  `intersects` stands for
the geometry collaborator `symmetry_domain.intersects(structure.geometry)`
(geometry module not under the provided sources), receiving the domain center
and size and the candidate geometry. -/
def drop_structure_p (intersects : V3 → V3 → BoxE → Bool) (axis : Fin 3)
    (dom_c dom_s : V3) (s : StructureE) : Bool :=
  match s with
  | StructureE.meshOverride g _ _ false =>
    optGTlo (g.lo axis) (dom_c.nth axis + dom_s.nth axis / 2) ||
    optLThi (g.hi axis) (dom_c.nth axis - dom_s.nth axis / 2)
  | s0 =>
    ! intersects dom_c dom_s s0.geometryOf

/-- The filtered structure list handed to the mesher (lines 596-608): a
`Structure` carrying the symmetry domain, followed by the surviving input
structures (in order). -/
def auto_grid_struct_list (intersects : V3 → V3 → BoxE → Bool) (axis : Fin 3)
    (sim_c sim_s : V3) (sym : ℤ × ℤ × ℤ) (structures : List StructureE) :
    List StructureE :=
  let d := symmetry_domain sim_c sim_s sym
  StructureE.physical ⟨d.1, d.2.toOV3⟩ ::
    (structures.drop 1).filter (fun s => ! drop_structure_p intersects axis d.1 d.2 s)

/-! GridRefinement and LayerRefinementSpec (grid_spec.py lines 845-1424). -/

/-- Default refinement factor applied when neither `refinement_factor` nor
`dl` is defined (`DEFAULT_REFINEMENT_FACTOR = 2`); `GridRefinement._refinement_factor`. -/
def refinement_factor_applied (rf dl : Option ℚ) : Option ℚ :=
  if rf = none ∧ dl = none then some 2 else rf

structure GridRefinementE where
  refinement_factor : Option ℚ
  dl : Option ℚ
  num_cells : ℕ
deriving DecidableEq, Repr

/-- `GridRefinement._grid_size`: minimum of `grid_size_in_vacuum / factor` and
the explicit `dl`, each branch applying only when set (starting from `inf`;
at least one branch always applies, so the `none, none` case is unreachable). -/
def GridRefinementE.grid_size (r : GridRefinementE) (grid_size_in_vacuum : ℚ) : ℚ :=
  match refinement_factor_applied r.refinement_factor r.dl, r.dl with
  | some f, some d => min (grid_size_in_vacuum / f) d
  | some f, none => grid_size_in_vacuum / f
  | none, some d => d
  | none, none => 0

/-- `GridRefinement.override_structure` (grid_spec.py lines 909-942): a
`MeshOverrideStructure` with `shadow=False`, step `dl` on every constrained
axis (`None` elsewhere), box center `0` and size `inf` on unconstrained axes,
size `dl * num_cells` on constrained ones. -/
def GridRefinementE.override_structure (r : GridRefinementE) (center : OV3)
    (grid_size_in_vacuum : ℚ) (drop_outside_sim : Bool) : StructureE :=
  let dl := r.grid_size grid_size_in_vacuum
  let dl_list : OV3 :=
    ⟨center.x.map (fun _ => dl), center.y.map (fun _ => dl), center.z.map (fun _ => dl)⟩
  let center_geo : V3 := ⟨center.x.getD 0, center.y.getD 0, center.z.getD 0⟩
  let size_geo : OV3 :=
    ⟨center.x.map (fun _ => dl * (r.num_cells : ℚ)),
     center.y.map (fun _ => dl * (r.num_cells : ℚ)),
     center.z.map (fun _ => dl * (r.num_cells : ℚ))⟩
  StructureE.meshOverride ⟨center_geo, size_geo⟩ dl_list false drop_outside_sim

/-- Order test `lo <= hi` on optional bounds (`none` on the left = `-inf`,
`none` on the right = `+inf`). -/
def optLE : Option ℚ → Option ℚ → Bool
  | none, _ => true
  | _, none => true
  | some a, some b => decide (a ≤ b)

/-- Modelled from the spec: `Geometry.intersects` for two axis-aligned boxes
(the geometry module is not under the provided sources) — the closed bounding
intervals overlap along every axis, infinite extents overlapping everything. -/
def boxIntersects (a b : BoxE) : Bool :=
  (optLE (a.lo 0) (b.hi 0) && optLE (b.lo 0) (a.hi 0)) &&
  (optLE (a.lo 1) (b.hi 1) && optLE (b.lo 1) (a.hi 1)) &&
  (optLE (a.lo 2) (b.hi 2) && optLE (b.lo 2) (a.hi 2))

/-- Componentwise minimum of lower bounds, `none` (`-inf`) absorbing; half of
`Box.bounds_union` (modelled from the spec, geometry module absent). -/
def optMinLo : Option ℚ → Option ℚ → Option ℚ
  | none, _ => none
  | _, none => none
  | some a, some b => some (min a b)

/-- Componentwise maximum of upper bounds, `none` (`+inf`) absorbing; half of
`Box.bounds_union` (modelled from the spec, geometry module absent). -/
def optMaxHi : Option ℚ → Option ℚ → Option ℚ
  | none, _ => none
  | _, none => none
  | some a, some b => some (max a b)

/-- Modelled from the spec: one axis of `Box.from_bounds` — finite bounds give
center `(lo+hi)/2` and size `hi-lo`; an infinite bound gives center `0` and
infinite size, as in the source geometry helper. -/
def axisFromBounds : Option ℚ → Option ℚ → ℚ × Option ℚ
  | some a, some b => ((a + b) / 2, some (b - a))
  | _, _ => (0, none)

/-- Modelled from the spec: `Box.from_bounds` from per-axis optional bounds. -/
def box_from_bounds (lo hi : Fin 3 → Option ℚ) : BoxE :=
  let fx := axisFromBounds (lo 0) (hi 0)
  let fy := axisFromBounds (lo 1) (hi 1)
  let fz := axisFromBounds (lo 2) (hi 2)
  ⟨⟨fx.1, fy.1, fz.1⟩, ⟨fx.2, fy.2, fz.2⟩⟩

/-- Comparison `a <= b` of `refinement_structures[0].dl[axis]` against the
axis step `dl` which starts as `float("inf")` (`none` = `inf`). -/
def leOptInf : Option ℚ → Option ℚ → Bool
  | _, none => true
  | none, some _ => false
  | some a, some b => decide (a ≤ b)

/-- `LayerRefinementSpec` restricted to the fields consumed by
`_override_structures_along_axis`; the corner-finder and snapping fields are
omitted (the corner-finder module is not under the provided sources and no
claim depends on them).  The source validator `_finite_size_along_axis`
guarantees `size[axis]` is finite, i.e. `some`. -/
structure LayerRefinementSpecE where
  axis : Fin 3
  center : V3
  size : OV3
  min_steps_along_axis : Option ℚ
  bounds_refinement : Option GridRefinementE
  refinement_inside_sim_only : Bool
deriving DecidableEq, Repr

/-- `LayerRefinementSpec.length_axis`: thickness of the layer (finite by the
source validator; `0` as a formal default). -/
def LayerRefinementSpecE.length_axis (s : LayerRefinementSpecE) : ℚ :=
  (s.size.nth s.axis).getD 0

def LayerRefinementSpecE.center_axis (s : LayerRefinementSpecE) : ℚ :=
  s.center.nth s.axis

/-- `self.bounds[0][self.axis]`. -/
def LayerRefinementSpecE.bound_lo (s : LayerRefinementSpecE) : ℚ :=
  s.center_axis - s.length_axis / 2

/-- `self.bounds[1][self.axis]`. -/
def LayerRefinementSpecE.bound_hi (s : LayerRefinementSpecE) : ℚ :=
  s.center_axis + s.length_axis / 2

/-- Merge step of `_override_structures_along_axis` (lines 1403-1419): when
the two bound-refinement structures overlap, replace them by a single
structure on the union bounding box carrying the first structure's `dl`. -/
def merge_refinement_structures (s : LayerRefinementSpecE)
    (l : List StructureE) : List StructureE :=
  match l with
  | [r0, r1] =>
    if boxIntersects r0.geometryOf r1.geometryOf then
      [StructureE.meshOverride
        (box_from_bounds (fun i => optMinLo (r0.geometryOf.lo i) (r1.geometryOf.lo i))
          (fun i => optMaxHi (r0.geometryOf.hi i) (r1.geometryOf.hi i)))
        r0.dlOf false s.refinement_inside_sim_only]
    else l
  | _ => l

/-- First half of `LayerRefinementSpec._override_structures_along_axis`
(grid_spec.py lines 1377-1391): the axis step `dl` (`none` = the initial
`inf`) and the `min_steps_along_axis` override structure, produced when
`min_steps_along_axis` is set and the layer has positive thickness. -/
def layer_axis_part (s : LayerRefinementSpecE) : Option ℚ × List StructureE :=
  match s.min_steps_along_axis with
  | some m =>
    if 0 < s.length_axis then
      (some (s.length_axis / m),
        [StructureE.meshOverride
          ⟨V3.unpop s.center_axis 0 s.axis, OV3.unpop (some s.length_axis) none s.axis⟩
          (OV3.unpop (some (s.length_axis / m)) none s.axis)
          false s.refinement_inside_sim_only])
    else (none, [])
  | none => (none, [])

/-- Bound-refinement structures (grid_spec.py lines 1395-1419): one
`GridRefinement.override_structure` at each of the 1-2 layer bound positions
(2 when the layer has positive thickness), merged when they overlap. -/
def layer_refinement_structures (s : LayerRefinementSpecE) (br : GridRefinementE)
    (grid_size_in_vacuum : ℚ) : List StructureE :=
  merge_refinement_structures s
    ((if 0 < s.length_axis then [s.bound_lo, s.bound_hi] else [s.bound_lo]).map
      (fun bpos => br.override_structure (OV3.unpop (some bpos) none s.axis)
        grid_size_in_vacuum s.refinement_inside_sim_only))

/-- Second half of `_override_structures_along_axis` (grid_spec.py lines
1394-1423): the bound-refinement structures are kept exactly when
`refinement_structures[0].dl[axis] <= dl` (with `dl = inf`, i.e. `none`,
when no axis override was made). -/
def layer_bounds_part (s : LayerRefinementSpecE) (grid_size_in_vacuum : ℚ)
    (dlAxis : Option ℚ) : List StructureE :=
  match s.bounds_refinement with
  | none => []
  | some br =>
    match layer_refinement_structures s br grid_size_in_vacuum with
    | r :: rest => if leOptInf (r.dlOf.nth s.axis) dlAxis then r :: rest else []
    | [] => []

/-- `LayerRefinementSpec._override_structures_along_axis` (grid_spec.py lines
1371-1424): the `min_steps_along_axis` override (when set and the layer has
positive thickness), then the bound-refinement structures (merged when
overlapping) appended exactly when their step is `<=` the axis step. -/
def LayerRefinementSpecE.override_structures_along_axis (s : LayerRefinementSpecE)
    (grid_size_in_vacuum : ℚ) : List StructureE :=
  (layer_axis_part s).2 ++
    layer_bounds_part s grid_size_in_vacuum (layer_axis_part s).1

/-! GridSpec orchestration (grid_spec.py lines 1427-1863), restricted to the
embedded per-axis strategies: the `AutoGrid`/`QuasiUniformGrid` variants
delegate to the absent mesher module, so their `_make_coords_initial` is not
embedded and `make_grid` is not modelled as succeeding on them. -/

inductive GridTypeE where
  | uniform (dl : ℚ)
  | customBoundaries (coords : List ℚ)
  | custom (dl : List ℚ) (custom_offset : Option ℚ)
  | autoGrid (min_steps_per_wvl min_steps_per_sim_size max_scale : ℚ) (dl_min : Option ℚ)
  | quasiUniform (dl : ℚ) (dl_min : Option ℚ)
deriving DecidableEq, Repr

structure GridSpecE where
  grid_x : GridTypeE
  grid_y : GridTypeE
  grid_z : GridTypeE
  wavelength : Option ℚ
  override_structures : List StructureE
  snapping_points : List OV3
deriving DecidableEq, Repr

/-- `GridSpec.auto_grid_used`: whether any of the three axes uses `AutoGrid`
(`QuasiUniformGrid` is a sibling subclass of `AbstractAutoGrid`, not an
`AutoGrid`, so it does not count). -/
def GridSpecE.auto_grid_used (gs : GridSpecE) : Bool :=
  [gs.grid_x, gs.grid_y, gs.grid_z].any (fun g =>
    match g with
    | GridTypeE.autoGrid _ _ _ _ => true
    | _ => false)

/-- `GridSpec.wavelength_from_sources` (grid_spec.py lines 1536-1557):
`SetupError` when there are no sources or the central frequencies are not all
`np.isclose` to the first one; otherwise `C_0 / freqs[0]`. -/
def wavelength_from_sources (freqs : List ℚ) : Except Unit ℚ :=
  match freqs with
  | [] => Except.error ()
  | f0 :: _ =>
    if freqs.all (fun f => npIsClose f f0) then Except.ok (C_0 / f0)
    else Except.error ()

/-- `GridSpec.get_wavelength` (grid_spec.py lines 1745-1751): derive the
wavelength from source frequencies only when `wavelength is None` and
`auto_grid_used`; otherwise pass `self.wavelength` through (possibly `None`). -/
def get_wavelength (gs : GridSpecE) (freqs : List ℚ) : Except Unit (Option ℚ) :=
  if gs.wavelength.isNone && gs.auto_grid_used then
    match wavelength_from_sources freqs with
    | Except.ok wl => Except.ok (some wl)
    | Except.error _ => Except.error ()
  else Except.ok gs.wavelength

/-- Per-axis `make_coords` dispatch over the variant-specific
`_make_coords_initial` followed by the shared symmetry/PML tail.  The
`autoGrid`/`quasiUniform` variants delegate to the absent mesher module and
are not embedded (`none`); the wavelength argument is consumed only by those
variants and is therefore not threaded through. -/
def GridType_make_coords (g : GridTypeE) (center size : ℚ) (symAxis : ℤ)
    (num_pml : ℕ × ℕ) (eps : ℚ) : Option (List ℚ) :=
  let initial : Option (List ℚ) :=
    match g with
    | GridTypeE.uniform dl => some (make_coords_initial_uniform dl center size)
    | GridTypeE.customBoundaries coords =>
      match postprocess_unaligned_grid eps center size false coords with
      | PostResult.ok l => some l
      | _ => none
    | GridTypeE.custom dl off =>
      match make_coords_initial_custom dl off eps center size with
      | PostResult.ok l => some l
      | _ => none
    | GridTypeE.autoGrid _ _ _ _ => none
    | GridTypeE.quasiUniform _ _ => none
  initial.map (fun bc => make_coords_from_initial bc center symAxis num_pml)

/-- `GridSpec.make_grid` (grid_spec.py lines 1753-1863) for the embedded
strategies: resolve the wavelength (first, as in the source), read the
simulation box from `structures[0]`, append the external override structures
(internal layer-refinement overrides are generated only when
`auto_grid_used and layer_refinement_used`, a case whose mesher-backed
meshing is not embedded), and produce the three per-axis boundary arrays.
The per-axis `dl_min` update (lines 1836-1848) rewrites only the `dl_min` of
`AutoGrid` axes, which is consumed by the absent mesher, and is therefore
omitted.  Failures anywhere are collapsed to `Except.error`. -/
def make_grid (gs : GridSpecE) (structures : List StructureE)
    (symmetry : ℤ × ℤ × ℤ) (sources : List ℚ)
    (num_pml_layers : (ℕ × ℕ) × (ℕ × ℕ) × (ℕ × ℕ)) (eps : ℚ) :
    Except Unit (List ℚ × List ℚ × List ℚ) :=
  match get_wavelength gs sources with
  | Except.error _ => Except.error ()
  | Except.ok _ =>
    match structures ++ gs.override_structures with
    | [] => Except.error ()
    | dom :: _ =>
      match dom.geometryOf.size.x, dom.geometryOf.size.y, dom.geometryOf.size.z with
      | some sx, some sy, some sz =>
        let c := dom.geometryOf.center
        match GridType_make_coords gs.grid_x c.x sx symmetry.1 num_pml_layers.1 eps,
          GridType_make_coords gs.grid_y c.y sy symmetry.2.1 num_pml_layers.2.1 eps,
          GridType_make_coords gs.grid_z c.z sz symmetry.2.2 num_pml_layers.2.2 eps with
        | some bx, some by_, some bz => Except.ok (bx, by_, bz)
        | _, _, _ => Except.error ()
      | _, _, _ => Except.error ()

/-! Concrete instances used by counterexamples and witnesses. -/

/-- `np.linspace(-1, 1, 11)`, the custom boundary array of the spec's own
end-to-end scenario 9. -/
def lin11 : List ℚ := [-1, -4/5, -3/5, -2/5, -1/5, 0, 1/5, 2/5, 3/5, 4/5, 1]

/-- One float32 ulp below `1/2`: the outward relaxation `np.nextafter`
produces at the domain bound `0.5`. -/
def ulpHalf : ℚ := 1 / 2 ^ 25

/-- GridSpec with a `QuasiUniformGrid` x-axis, no `AutoGrid` axis, and unset
wavelength. -/
def gsQuasi : GridSpecE :=
  ⟨GridTypeE.quasiUniform 1 none, GridTypeE.uniform 1, GridTypeE.uniform 1, none, [], []⟩

/-- GridSpec with an `AutoGrid` x-axis (default parameters) and unset
wavelength. -/
def gsAuto : GridSpecE :=
  ⟨GridTypeE.autoGrid 10 10 (7/5) none, GridTypeE.uniform 1, GridTypeE.uniform 1, none, [], []⟩

/-- GridSpec of the spec's end-to-end scenario 9: `CustomGridBoundaries`
along x with `linspace(-1, 1, 11)`, uniform along y and z. -/
def gsCustomX : GridSpecE :=
  ⟨GridTypeE.customBoundaries lin11, GridTypeE.uniform 1, GridTypeE.uniform 1, some 1, [], []⟩

/-- Simulation-domain structure: unit box centered at the origin. -/
def domUnit : StructureE :=
  StructureE.physical ⟨⟨0, 0, 0⟩, ⟨some 1, some 1, some 1⟩⟩

/-- GridSpec with `CustomGridBoundaries [-2/5, 2/5]` along x, uniform y and z:
a successful `make_grid` input whose x boundaries under-cover the unit
domain. -/
def gsC1 : GridSpecE :=
  ⟨GridTypeE.customBoundaries [-(2/5), 2/5], GridTypeE.uniform 1, GridTypeE.uniform 1,
    some 1, [], []⟩

/-- Bound refinement requesting cells of size `1/10`. -/
def brTenth : GridRefinementE := ⟨none, some (1/10), 3⟩

/-- Layer of thickness 1 along z with `min_steps_along_axis = 1` (axis cell
size 1) and bound refinement `brTenth` (cell size `1/10`, ten times finer). -/
def layerTenth : LayerRefinementSpecE :=
  ⟨2, ⟨0, 0, 0⟩, ⟨none, none, some 1⟩, some 1, some brTenth, true⟩

/-- The axis-direction override structure `layerTenth` generates. -/
def axisOvTenth : StructureE :=
  StructureE.meshOverride ⟨⟨0, 0, 0⟩, ⟨none, none, some 1⟩⟩
    ⟨none, none, some 1⟩ false true

/-- The lower-bound refinement override structure `layerTenth` generates. -/
def refLoTenth : StructureE :=
  StructureE.meshOverride ⟨⟨0, 0, -1/2⟩, ⟨none, none, some (3/10)⟩⟩
    ⟨none, none, some (1/10)⟩ false true

/-- The upper-bound refinement override structure `layerTenth` generates. -/
def refHiTenth : StructureE :=
  StructureE.meshOverride ⟨⟨0, 0, 1/2⟩, ⟨none, none, some (3/10)⟩⟩
    ⟨none, none, some (1/10)⟩ false true

/-- Layer with `min_steps_along_axis` set but no bound refinement, for the
C10 witness. -/
def layerAxisOnly : LayerRefinementSpecE :=
  ⟨2, ⟨0, 0, 0⟩, ⟨none, none, some 1⟩, some 1, none, true⟩

/-! Helper lemmas about list indexing. -/

theorem getD_range_map (f : ℕ → ℚ) {n i : ℕ} (h : i < n) :
    ((List.range n).map f).getD i 0 = f i := by
  simp [List.getD, List.getElem?_map, List.getElem?_range h]

theorem headI_range_map (f : ℕ → ℚ) {n : ℕ} (h : 0 < n) :
    ((List.range n).map f).headI = f 0 := by
  cases n with
  | zero => omega
  | succ m => simp [List.range_succ_eq_map]

theorem getLastD_range_map (f : ℕ → ℚ) {n : ℕ} (h : 0 < n) :
    ((List.range n).map f).getLastD 0 = f (n - 1) := by
  cases n with
  | zero => omega
  | succ m => simp [List.range_succ, List.getLastD_concat]

theorem getD_zero_of_ne_nil (l : List ℚ) (h : l ≠ []) : l.getD 0 0 = l.headI := by
  cases l with
  | nil => simp at h
  | cons a t => simp [List.getD]

theorem getD_last_of_ne_nil (l : List ℚ) (h : l ≠ []) :
    l.getD (l.length - 1) 0 = l.getLastD 0 := by
  have hp : 0 < l.length := List.length_pos.mpr h
  rw [List.getLastD_eq_getLast?, List.getLast?_eq_getElem?]
  simp [List.getD, List.getElem?_eq_getElem (by omega : l.length - 1 < l.length)]

/-- Unfolding of `add_pml_to_bounds` in the generic case of at least two
boundaries. -/
theorem add_pml_eq (nm np_ : ℕ) (bounds : List ℚ) (h : 2 ≤ bounds.length) :
    add_pml_to_bounds (nm, np_) bounds =
      ((List.range nm).map
        (fun i : ℕ => bounds.headI - firstGap bounds * ((nm - i : ℕ) : ℚ)))
      ++ bounds
      ++ ((List.range np_).map
        (fun i : ℕ => bounds.getLastD 0 + lastGap bounds * ((i + 1 : ℕ) : ℚ))) := by
  rw [add_pml_to_bounds, if_neg (by omega)]

theorem snap_ends_headI (a : ℚ) (l : List ℚ) (lo hi : ℚ) (h : l ≠ []) :
    (snap_ends (a :: l) lo hi).headI = lo := by
  cases l with
  | nil => exact absurd rfl h
  | cons b t => rfl

theorem snap_ends_getLastD (l : List ℚ) (lo hi : ℚ) (h : l ≠ []) :
    (snap_ends l lo hi).getLastD 0 = hi := by
  match l with
  | [a] => rfl
  | a :: b :: t =>
    show (lo :: (((a :: b :: t).drop 1).dropLast ++ [hi])).getLastD 0 = hi
    rw [List.getLastD_eq_getLast?, ← List.cons_append, List.getLast?_concat]
    rfl

theorem scanl_ne_nil (f : ℚ → ℚ → ℚ) (b : ℚ) (l : List ℚ) :
    List.scanl f b l ≠ [] := by
  cases l <;> simp [List.scanl]

theorem auto_grid_bound_coords_ne_nil (dl_concat : List ℚ) (s : ℚ) :
    auto_grid_bound_coords dl_concat s ≠ [] := by
  rw [auto_grid_bound_coords]
  simp only [ne_eq, List.map_eq_nil_iff]
  exact scanl_ne_nil _ _ _

theorem auto_grid_bound_coords_cons (d : ℚ) (rest : List ℚ) (s : ℚ) :
    auto_grid_bound_coords (d :: rest) s =
      (0 + s) :: (List.scanl (fun a b => a + b) (0 + d) rest).map (fun x => x + s) := by
  rw [auto_grid_bound_coords]
  simp [List.scanl]

/-! ### Claim C2: AutoGrid consistency check and forced snap -/

/-- C2 counterexample: when the mesher output misses the domain bounds
(`cumsum` ends at `1`, domain upper bound `2`, not `np.isclose`), the code
raises `SetupError` and returns nothing — the forced snap on grid_spec.py
line 650 is unreachable on the error path, so no "forced-correction recovery
step" result is returned, contrary to the claim. -/
theorem C2_counterexample :
    auto_grid_finalize [1] 0 0 2 = Except.error () ∧
    npIsClose ((auto_grid_bound_coords [1] 0).getLastD 0) 2 = false := by
  have h : npIsClose ((auto_grid_bound_coords [1] 0).getLastD 0) 2 = false := by
    norm_num [auto_grid_bound_coords, npIsClose, List.scanl]
  refine ⟨?_, h⟩
  rw [auto_grid_finalize]
  simp only [h, Bool.and_false]
  rfl

/-- C2 (amended): in `AbstractAutoGrid._make_coords_initial`, when the
first/last generated boundary does not match the symmetry-domain bounds to
floating precision (`np.isclose`), a `SetupError` is raised and no result is
returned (the forced snap after the `raise` is unreachable); when the check
passes, the first and last boundary are snapped exactly onto the domain
bounds before the result is returned. -/
theorem C2_auto_grid_finalize (dl_concat : List ℚ) (interval_start domain_lo domain_hi : ℚ) :
    ((npIsClose (auto_grid_bound_coords dl_concat interval_start).headI domain_lo &&
        npIsClose ((auto_grid_bound_coords dl_concat interval_start).getLastD 0) domain_hi)
        = false →
      auto_grid_finalize dl_concat interval_start domain_lo domain_hi = Except.error ()) ∧
    ((npIsClose (auto_grid_bound_coords dl_concat interval_start).headI domain_lo &&
        npIsClose ((auto_grid_bound_coords dl_concat interval_start).getLastD 0) domain_hi)
        = true →
      auto_grid_finalize dl_concat interval_start domain_lo domain_hi =
        Except.ok (snap_ends (auto_grid_bound_coords dl_concat interval_start)
          domain_lo domain_hi) ∧
      (dl_concat ≠ [] →
        (snap_ends (auto_grid_bound_coords dl_concat interval_start)
          domain_lo domain_hi).headI = domain_lo) ∧
      (snap_ends (auto_grid_bound_coords dl_concat interval_start)
          domain_lo domain_hi).getLastD 0 = domain_hi) := by
  constructor
  · intro h
    rw [auto_grid_finalize]
    simp only [h]
    rfl
  · intro h
    refine ⟨by rw [auto_grid_finalize]; simp only [h]; rfl, ?_, ?_⟩
    · intro hne
      cases dl_concat with
      | nil => exact absurd rfl hne
      | cons d rest =>
        rw [auto_grid_bound_coords_cons]
        exact snap_ends_headI _ _ _ _ (by simp [scanl_ne_nil])
    · cases dl_concat with
      | nil =>
        rw [auto_grid_bound_coords]
        simp [List.scanl, snap_ends]
      | cons d rest =>
        rw [auto_grid_bound_coords_cons]
        exact snap_ends_getLastD _ _ _ (by simp [scanl_ne_nil])

/-- C2 witness: the success path at a concrete input whose generated
boundaries hit the domain bounds exactly. -/
theorem C2_witness :
    auto_grid_finalize [2] 0 0 2 =
      Except.ok (snap_ends (auto_grid_bound_coords [2] 0) 0 2) :=
  ((C2_auto_grid_finalize [2] 0 0 2).2
    (by norm_num [auto_grid_bound_coords, npIsClose, List.scanl])).1

/-! ### Claim C4: UniformGrid initial coordinates -/

/-- C4 counterexample: with `dl = 1` on a zero-size domain centered at `0`,
`UniformGrid._make_coords_initial` returns the 2-point array `[0, 1]`, not
`ceil(0/1) + 1 = 1` evenly spaced points spanning `[center, center]` as the
claim states for `S = 0`. -/
theorem C4_counterexample :
    make_coords_initial_uniform 1 0 0 = [0, 1] ∧
    Int.toNat ⌈(0 : ℚ) / 1⌉ + 1 = 1 ∧
    (make_coords_initial_uniform 1 0 0).length ≠ 1 ∧
    (make_coords_initial_uniform 1 0 0).getLastD 0 ≠ 0 + (0 : ℚ) / 2 := by
  have h : (⌈(0:ℚ)/1⌉ : ℤ) = 0 := by norm_num
  have hl : make_coords_initial_uniform 1 0 0 = [0, 1] := by
    simp [make_coords_initial_uniform, h, List.range_succ]
  refine ⟨hl, by simp [h], by rw [hl]; simp, by rw [hl]; norm_num⟩

/-- C4 (amended): for `UniformGrid(dl=d)` on a domain of size `S ≥ 0`:
the number of cells is `max(1, ceil(S/d))` (so the array has
`max(1, ceil(S/d)) + 1` points); when `S > 0` the cell count is exactly
`ceil(S/d)`, the actual step `S/num_cells` never exceeds the requested `d`,
and the boundaries are `ceil(S/d) + 1` evenly spaced points spanning exactly
`[center - S/2, center + S/2]`; when `S = 0` the array is the 2-point
`[center, center + d]` (step `d`), not a single point. -/
theorem C4_uniform_make_coords_initial (dl center size : ℚ)
    (hdl : 0 < dl) (hsz : 0 ≤ size) :
    (make_coords_initial_uniform dl center size).length
      = max 1 (Int.toNat ⌈size / dl⌉) + 1 ∧
    (0 < size →
      max 1 (Int.toNat ⌈size / dl⌉) = Int.toNat ⌈size / dl⌉ ∧
      size / ((Int.toNat ⌈size / dl⌉ : ℕ) : ℚ) ≤ dl ∧
      (make_coords_initial_uniform dl center size).headI = center - size / 2 ∧
      (make_coords_initial_uniform dl center size).getLastD 0 = center + size / 2 ∧
      (∀ i < Int.toNat ⌈size / dl⌉,
        (make_coords_initial_uniform dl center size).getD (i + 1) 0 -
          (make_coords_initial_uniform dl center size).getD i 0
        = size / ((Int.toNat ⌈size / dl⌉ : ℕ) : ℚ))) ∧
    (size = 0 → make_coords_initial_uniform dl center size = [center, center + dl]) := by
  refine ⟨?_, ?_, ?_⟩
  · simp [make_coords_initial_uniform]
  · intro hs
    have hpos : 0 < ⌈size / dl⌉ := Int.ceil_pos.mpr (div_pos hs hdl)
    have h1 : 1 ≤ Int.toNat ⌈size / dl⌉ := by omega
    have hmax : max 1 (Int.toNat ⌈size / dl⌉) = Int.toNat ⌈size / dl⌉ := max_eq_right h1
    have hNQ : ((Int.toNat ⌈size / dl⌉ : ℕ) : ℚ) ≠ 0 := by
      have h0 : (0:ℚ) < ((Int.toNat ⌈size / dl⌉ : ℕ) : ℚ) := by exact_mod_cast h1
      positivity
    refine ⟨hmax, ?_, ?_, ?_, ?_⟩
    · have hceil : ((Int.toNat ⌈size / dl⌉ : ℕ) : ℚ) = (⌈size / dl⌉ : ℚ) := by
        have h2 : ((Int.toNat ⌈size / dl⌉ : ℕ) : ℤ) = ⌈size / dl⌉ :=
          Int.toNat_of_nonneg hpos.le
        exact_mod_cast congrArg (fun z : ℤ => (z : ℚ)) h2
      rw [hceil, div_le_iff₀ (by exact_mod_cast hpos)]
      have h2 : size / dl ≤ (⌈size / dl⌉ : ℚ) := Int.le_ceil _
      calc size = dl * (size / dl) := by field_simp
      _ ≤ dl * (⌈size / dl⌉ : ℚ) := by nlinarith
    · rw [make_coords_initial_uniform]
      simp only [hmax, if_pos hs]
      rw [headI_range_map _ (Nat.succ_pos _)]
      push_cast
      ring
    · rw [make_coords_initial_uniform]
      simp only [hmax, if_pos hs]
      rw [getLastD_range_map _ (Nat.succ_pos _)]
      have h2 : ((Int.toNat ⌈size / dl⌉ + 1 - 1 : ℕ) : ℚ)
          = ((Int.toNat ⌈size / dl⌉ : ℕ) : ℚ) := by
        push_cast
        ring
      rw [h2, mul_comm, div_mul_cancel₀ _ hNQ]
      ring
    · intro i hi
      rw [make_coords_initial_uniform]
      simp only [hmax, if_pos hs]
      rw [getD_range_map _ (by omega), getD_range_map _ (by omega)]
      push_cast
      ring
  · intro hs
    subst hs
    have h : (⌈(0:ℚ)/dl⌉ : ℤ) = 0 := by
      rw [zero_div]
      exact Int.ceil_zero
    simp [make_coords_initial_uniform, h, List.range_succ]

/-- C4 witness: instantiation of the amended UniformGrid theorem at
`dl = 1`, `center = 0`, `size = 3/2`. -/
theorem C4_witness :
    (make_coords_initial_uniform 1 0 (3/2)).length
      = max 1 (Int.toNat ⌈(3/2 : ℚ) / 1⌉) + 1 :=
  (C4_uniform_make_coords_initial 1 0 (3/2) (by norm_num) (by norm_num)).1

/-! ### Claim C8: PML padding -/

/-- C8: `_add_pml_to_bounds((n_minus, n_plus), bounds)` returns `bounds`
unchanged whenever it has fewer than 2 entries; otherwise it prepends exactly
`n_minus` points, each spaced by the lower edge-cell width
`bounds[1] - bounds[0]`, appends exactly `n_plus` points, each spaced by the
upper edge-cell width `bounds[-1] - bounds[-2]`, and keeps the original
entries unchanged in the middle. -/
theorem C8_add_pml_to_bounds (nm np_ : ℕ) (bounds : List ℚ) :
    (bounds.length < 2 → add_pml_to_bounds (nm, np_) bounds = bounds) ∧
    (2 ≤ bounds.length →
      (add_pml_to_bounds (nm, np_) bounds).length = nm + bounds.length + np_ ∧
      ((add_pml_to_bounds (nm, np_) bounds).drop nm).take bounds.length = bounds ∧
      (∀ i, i + 1 ≤ nm →
        (add_pml_to_bounds (nm, np_) bounds).getD (i + 1) 0 -
          (add_pml_to_bounds (nm, np_) bounds).getD i 0 = firstGap bounds) ∧
      (∀ i, nm + bounds.length - 1 ≤ i → i + 1 < nm + bounds.length + np_ →
        (add_pml_to_bounds (nm, np_) bounds).getD (i + 1) 0 -
          (add_pml_to_bounds (nm, np_) bounds).getD i 0 = lastGap bounds)) := by
  constructor
  · intro h
    rw [add_pml_to_bounds, if_pos h]
  · intro h2
    have hne : bounds ≠ [] := by
      intro h
      rw [h] at h2
      simp at h2
    set A := (List.range nm).map
      (fun i : ℕ => bounds.headI - firstGap bounds * ((nm - i : ℕ) : ℚ)) with hAdef
    set B := (List.range np_).map
      (fun i : ℕ => bounds.getLastD 0 + lastGap bounds * ((i + 1 : ℕ) : ℚ)) with hBdef
    have hEq : add_pml_to_bounds (nm, np_) bounds = A ++ bounds ++ B := add_pml_eq nm np_ bounds h2
    have hA : A.length = nm := by simp [hAdef]
    have hB : B.length = np_ := by simp [hBdef]
    have hgetA : ∀ i, i < nm →
        (add_pml_to_bounds (nm, np_) bounds).getD i 0
          = bounds.headI - firstGap bounds * ((nm - i : ℕ) : ℚ) := by
      intro i hi
      rw [hEq, List.append_assoc, List.getD_append _ _ 0 i (by omega), hAdef,
        getD_range_map _ hi]
    have hgetM : ∀ i, nm ≤ i → i < nm + bounds.length →
        (add_pml_to_bounds (nm, np_) bounds).getD i 0 = bounds.getD (i - nm) 0 := by
      intro i hi hi2
      rw [hEq, List.append_assoc, List.getD_append_right _ _ 0 i (by omega), hA,
        List.getD_append _ _ 0 _ (by omega)]
    have hgetB : ∀ i, nm + bounds.length ≤ i → i < nm + bounds.length + np_ →
        (add_pml_to_bounds (nm, np_) bounds).getD i 0
          = bounds.getLastD 0 + lastGap bounds * ((i - nm - bounds.length + 1 : ℕ) : ℚ) := by
      intro i hi hi2
      have hAB : (A ++ bounds).length = nm + bounds.length := by simp [hA]
      rw [hEq, List.getD_append_right _ _ 0 i (by omega), hAB, hBdef,
        getD_range_map _ (by omega)]
      have e1 : i - (nm + bounds.length) = i - nm - bounds.length := by omega
      rw [e1]
    refine ⟨?_, ?_, ?_, ?_⟩
    · rw [hEq]
      simp only [List.length_append, hA, hB]
    · rw [hEq, List.append_assoc]
      have : nm = A.length := hA.symm
      rw [this, List.drop_left, List.take_left]
    · intro i hi
      rcases Nat.lt_or_ge (i + 1) nm with hlt | hge
      · rw [hgetA (i + 1) (by omega), hgetA i (by omega)]
        have c1 : ((nm - i : ℕ) : ℚ) = (nm : ℚ) - (i : ℚ) := by
          push_cast [Nat.cast_sub (by omega : i ≤ nm)]
          ring
        have c2 : ((nm - (i + 1) : ℕ) : ℚ) = (nm : ℚ) - (i : ℚ) - 1 := by
          push_cast [Nat.cast_sub (by omega : i + 1 ≤ nm)]
          ring
        rw [c1, c2]
        ring
      · have hi1 : i + 1 = nm := by omega
        rw [hgetM (i + 1) (by omega) (by omega), hgetA i (by omega)]
        have c0 : i + 1 - nm = 0 := by omega
        have c1 : ((nm - i : ℕ) : ℚ) = 1 := by
          have : nm - i = 1 := by omega
          rw [this]
          norm_num
        rw [c0, c1, getD_zero_of_ne_nil bounds hne]
        ring
    · intro i hi hi2
      rcases Nat.lt_or_ge i (nm + bounds.length) with hlt | hge
      · have hieq : i = nm + bounds.length - 1 := by omega
        rw [hgetB (i + 1) (by omega) (by omega), hgetM i (by omega) hlt]
        have c0 : i - nm = bounds.length - 1 := by omega
        have c1 : i + 1 - nm - bounds.length + 1 = 1 := by omega
        rw [c0, c1, getD_last_of_ne_nil bounds hne]
        norm_num
      · rw [hgetB (i + 1) (by omega) (by omega), hgetB i hge (by omega)]
        have c1 : ((i + 1 - nm - bounds.length + 1 : ℕ) : ℚ)
            = ((i - nm - bounds.length + 1 : ℕ) : ℚ) + 1 := by
          have e1 : i + 1 - nm - bounds.length + 1 = (i - nm - bounds.length + 1) + 1 := by omega
          rw [e1]
          push_cast
          ring
        rw [c1]
        ring

/-- C8 witness: instantiation at `bounds = [0, 1/2]`, 1 lower and 2 upper
PML layers. -/
theorem C8_witness :
    (add_pml_to_bounds (1, 2) [0, 1/2]).length = 1 + ([0, (1:ℚ)/2]).length + 2 :=
  ((C8_add_pml_to_bounds 1 2 [0, 1/2]).2 (by norm_num)).1

/-! ### Claim C3: wavelength resolution in make_grid -/

theorem npIsClose_self (a : ℚ) : npIsClose a a = true := by
  rw [npIsClose]
  simp only [sub_self, abs_zero, decide_eq_true_eq]
  positivity

/-- C3 counterexample: a GridSpec whose only adaptive axis is
`QuasiUniformGrid`, with unset wavelength and zero sources, does not fail:
`get_wavelength` passes the unset wavelength through, because
`auto_grid_used` counts only `AutoGrid` axes — contrary to the claim's
"AutoGrid or QuasiUniformGrid". -/
theorem C3_counterexample :
    gsQuasi.grid_x = GridTypeE.quasiUniform 1 none ∧
    gsQuasi.wavelength = none ∧
    get_wavelength gsQuasi [] = Except.ok none :=
  ⟨rfl, rfl, rfl⟩

/-- C3 (amended): when `GridSpec.wavelength` is `None` and at least one axis
uses `AutoGrid` (`QuasiUniformGrid` does not trigger source-based wavelength
derivation), `make_grid` fails with a setup error if there are zero sources,
and fails if the source central frequencies are not all within `np.isclose`
tolerance of the first one; otherwise the wavelength used for grid generation
equals `C_0` divided by the first central frequency. -/
theorem C3_wavelength_resolution (gs : GridSpecE) (freqs : List ℚ)
    (hauto : gs.auto_grid_used = true) (hwl : gs.wavelength = none) :
    (freqs = [] → get_wavelength gs freqs = Except.error () ∧
      ∀ structures sym npml eps,
        make_grid gs structures sym freqs npml eps = Except.error ()) ∧
    (∀ f0 t, freqs = f0 :: t →
      ((∃ f ∈ freqs, npIsClose f f0 = false) →
        get_wavelength gs freqs = Except.error () ∧
        ∀ structures sym npml eps,
          make_grid gs structures sym freqs npml eps = Except.error ()) ∧
      ((∀ f ∈ freqs, npIsClose f f0 = true) →
        get_wavelength gs freqs = Except.ok (some (C_0 / f0)))) := by
  have hgw : ∀ r, wavelength_from_sources freqs = r →
      get_wavelength gs freqs = (match r with
        | Except.ok wl => Except.ok (some wl)
        | Except.error _ => Except.error ()) := by
    intro r hr
    rw [get_wavelength, hwl, hauto]
    simp only [Option.isNone_none, Bool.true_and, if_pos rfl, hr, if_true]
  constructor
  · intro hf
    subst hf
    have hg : get_wavelength gs [] = Except.error () := hgw _ rfl
    refine ⟨hg, ?_⟩
    intro structures sym npml eps
    rw [make_grid, hg]
  · intro f0 t hf
    subst hf
    constructor
    · intro hex
      have hall : ((f0 :: t).all (fun f => npIsClose f f0)) = false := by
        rcases hex with ⟨f, hmem, hfc⟩
        rw [List.all_eq_false]
        exact ⟨f, hmem, by simp [hfc]⟩
      have hw : wavelength_from_sources (f0 :: t) = Except.error () := by
        rw [wavelength_from_sources]
        simp [hall]
      have hg : get_wavelength gs (f0 :: t) = Except.error () := hgw _ hw
      refine ⟨hg, ?_⟩
      intro structures sym npml eps
      rw [make_grid, hg]
    · intro hallm
      have hall : ((f0 :: t).all (fun f => npIsClose f f0)) = true := by
        rw [List.all_eq_true]
        exact hallm
      have hw : wavelength_from_sources (f0 :: t) = Except.ok (C_0 / f0) := by
        rw [wavelength_from_sources]
        simp [hall]
      exact hgw _ hw

/-- C3 witness: an `AutoGrid` GridSpec with one source of frequency `C_0`
resolves the wavelength to `C_0 / C_0`. -/
theorem C3_witness :
    get_wavelength gsAuto [C_0] = Except.ok (some (C_0 / C_0)) :=
  ((C3_wavelength_resolution gsAuto [C_0] rfl rfl).2 C_0 [] rfl).2
    (by
      intro f hf
      simp only [List.mem_singleton] at hf
      subst hf
      exact npIsClose_self _)

/-! ### Claim C10: internally generated overrides never shadow -/

theorem mem_merge_shadowOf (s : LayerRefinementSpecE) (l : List StructureE)
    (st : StructureE) (hst : st ∈ merge_refinement_structures s l)
    (hl : ∀ x ∈ l, x.shadowOf = false) : st.shadowOf = false := by
  rcases l with _ | ⟨r0, _ | ⟨r1, _ | ⟨r2, t⟩⟩⟩
  · simp [merge_refinement_structures] at hst
  · rw [merge_refinement_structures] at hst
    · exact hl st hst
    · intro a b hab
      simp at hab
  · rw [merge_refinement_structures] at hst
    by_cases hint : boxIntersects r0.geometryOf r1.geometryOf = true
    · rw [if_pos hint] at hst
      simp only [List.mem_singleton] at hst
      subst hst
      rfl
    · rw [if_neg hint] at hst
      exact hl st hst
  · rw [merge_refinement_structures] at hst
    · exact hl st hst
    · intro a b hab
      simp at hab

theorem mem_axis_part_shadowOf (s : LayerRefinementSpecE) (st : StructureE)
    (hst : st ∈ (layer_axis_part s).2) : st.shadowOf = false := by
  rcases hms : s.min_steps_along_axis with _ | m <;>
    simp only [layer_axis_part, hms] at hst
  · simp at hst
  · by_cases hl : 0 < s.length_axis
    · rw [if_pos hl] at hst
      simp only [List.mem_singleton] at hst
      subst hst
      rfl
    · rw [if_neg hl] at hst
      simp at hst

theorem mem_bounds_part_shadowOf (s : LayerRefinementSpecE) (g : ℚ)
    (dlAxis : Option ℚ) (st : StructureE)
    (hst : st ∈ layer_bounds_part s g dlAxis) : st.shadowOf = false := by
  rcases hbr : s.bounds_refinement with _ | br <;>
    simp only [layer_bounds_part, hbr] at hst
  · simp at hst
  · have hmem : st ∈ layer_refinement_structures s br g := by
      rcases hrs : layer_refinement_structures s br g with _ | ⟨r, rest⟩ <;>
        simp only [hrs] at hst
      · simp at hst
      · by_cases hle : leOptInf (r.dlOf.nth s.axis) dlAxis = true
        · rw [if_pos hle] at hst
          exact hst
        · rw [if_neg hle] at hst
          simp at hst
    refine mem_merge_shadowOf s _ st hmem ?_
    intro x hx
    simp only [List.mem_map] at hx
    obtain ⟨bpos, _, hxe⟩ := hx
    rw [← hxe]
    rfl

/-- C10: every `MeshOverrideStructure` generated internally by the grid
subsystem — by `GridRefinement.override_structure`, by the
`min_steps_along_axis` override of `LayerRefinementSpec`, and by the merged
boundary-refinement structure — has `shadow=False`. -/
theorem C10_internal_overrides_unshadowed (r : GridRefinementE) (center : OV3) (g : ℚ)
    (dro : Bool) (s : LayerRefinementSpecE) (g2 : ℚ) :
    (r.override_structure center g dro).shadowOf = false ∧
    ∀ st ∈ s.override_structures_along_axis g2, st.shadowOf = false := by
  refine ⟨rfl, ?_⟩
  intro st hst
  rw [LayerRefinementSpecE.override_structures_along_axis, List.mem_append] at hst
  rcases hst with hst | hst
  · exact mem_axis_part_shadowOf s st hst
  · exact mem_bounds_part_shadowOf s g2 _ st hst
/-- C10 witness: the axis-direction override generated by a concrete layer
spec is unshadowed. -/
theorem C10_witness : axisOvTenth.shadowOf = false :=
  (C10_internal_overrides_unshadowed brTenth ⟨none, none, some 0⟩ 1 true layerAxisOnly 1).2 axisOvTenth
    (by
      have h1 : layerAxisOnly.length_axis = 1 := rfl
      norm_num [LayerRefinementSpecE.override_structures_along_axis, layer_axis_part,
        layer_bounds_part, layerAxisOnly, axisOvTenth, h1, LayerRefinementSpecE.length_axis,
        LayerRefinementSpecE.center_axis, V3.unpop, OV3.unpop, OV3.nth, V3.nth])

/-! ### Claim C9: layer-refinement override structures along the axis -/

theorem OV3_nth_unpop_self (a p : Option ℚ) (i : Fin 3) : (OV3.unpop a p i).nth i = a := by
  fin_cases i <;> rfl

/-- `GridRefinement.override_structure` at a single-axis-constrained center:
box and step constrained along `axis` only, infinite and unconstrained
in-plane. -/
theorem override_structure_unpop (br : GridRefinementE) (bpos g : ℚ) (dro : Bool)
    (axis : Fin 3) :
    br.override_structure (OV3.unpop (some bpos) none axis) g dro =
      StructureE.meshOverride
        ⟨V3.unpop bpos 0 axis, OV3.unpop (some (br.grid_size g * (br.num_cells : ℚ))) none axis⟩
        (OV3.unpop (some (br.grid_size g)) none axis) false dro := by
  fin_cases axis <;> rfl

/-- Union bounding box of the two bound-refinement boxes: centered between
the two positions, axis extent covering both boxes, in-plane infinite. -/
theorem union_box_eq (axis : Fin 3) (bl bh d : ℚ) (hlb : bl ≤ bh) :
    box_from_bounds
      (fun i => optMinLo
        ((BoxE.mk (V3.unpop bl 0 axis) (OV3.unpop (some d) none axis)).lo i)
        ((BoxE.mk (V3.unpop bh 0 axis) (OV3.unpop (some d) none axis)).lo i))
      (fun i => optMaxHi
        ((BoxE.mk (V3.unpop bl 0 axis) (OV3.unpop (some d) none axis)).hi i)
        ((BoxE.mk (V3.unpop bh 0 axis) (OV3.unpop (some d) none axis)).hi i))
    = ⟨V3.unpop ((bl + bh) / 2) 0 axis, OV3.unpop (some ((bh - bl) + d)) none axis⟩ := by
  have hmin : min (bl - d / 2) (bh - d / 2) = bl - d / 2 := min_eq_left (by linarith)
  have hmax : max (bl + d / 2) (bh + d / 2) = bh + d / 2 := max_eq_right (by linarith)
  fin_cases axis <;>
    simp [box_from_bounds, axisFromBounds, BoxE.lo, BoxE.hi, V3.unpop, OV3.unpop,
      V3.nth, OV3.nth, optMinLo, optMaxHi, hmin, hmax, V3.mk.injEq, OV3.mk.injEq] <;>
    ring

/-- C9 counterexample: `layerTenth` has `min_steps_along_axis = 1` (axis cell
size `1`) and a bound refinement of cell size `1/10` — ten times smaller —
yet `_override_structures_along_axis` keeps the axis-direction override as
the first element of its output instead of discarding it; the two
non-overlapping bound-refinement structures follow it. -/
theorem C9_counterexample :
    layerTenth.override_structures_along_axis 1 = [axisOvTenth, refLoTenth, refHiTenth] ∧
    brTenth.grid_size 1 < layerTenth.length_axis / 1 := by
  have hlen : layerTenth.length_axis = 1 := rfl
  have hcax : layerTenth.center_axis = 0 := rfl
  have hgs : brTenth.grid_size 1 = 1/10 := by
    rw [GridRefinementE.grid_size,
      show brTenth.refinement_factor = none from rfl,
      show brTenth.dl = some (1/10) from rfl,
      show refinement_factor_applied none (some (1/10)) = none from by
        rw [refinement_factor_applied]
        simp]
  have hbl : layerTenth.bound_lo = -(1/2) := by
    rw [LayerRefinementSpecE.bound_lo, hcax, hlen]
    norm_num
  have hbh : layerTenth.bound_hi = 1/2 := by
    rw [LayerRefinementSpecE.bound_hi, hcax, hlen]
    norm_num
  have hov_lo : brTenth.override_structure
      (OV3.unpop (some layerTenth.bound_lo) none layerTenth.axis) 1
      layerTenth.refinement_inside_sim_only = refLoTenth := by
    rw [show layerTenth.refinement_inside_sim_only = true from rfl, hbl,
      override_structure_unpop, hgs, show layerTenth.axis = (2 : Fin 3) from rfl]
    rw [refLoTenth, show brTenth.num_cells = 3 from rfl]
    norm_num [V3.unpop, OV3.unpop]
  have hov_hi : brTenth.override_structure
      (OV3.unpop (some layerTenth.bound_hi) none layerTenth.axis) 1
      layerTenth.refinement_inside_sim_only = refHiTenth := by
    rw [show layerTenth.refinement_inside_sim_only = true from rfl, hbh,
      override_structure_unpop, hgs, show layerTenth.axis = (2 : Fin 3) from rfl]
    rw [refHiTenth, show brTenth.num_cells = 3 from rfl]
    norm_num [V3.unpop, OV3.unpop]
  have hint : boxIntersects refLoTenth.geometryOf refHiTenth.geometryOf = false := by
    norm_num [boxIntersects, optLE, BoxE.lo, BoxE.hi, refLoTenth, refHiTenth,
      StructureE.geometryOf, OV3.nth, V3.nth]
  have hlrs : layer_refinement_structures layerTenth brTenth 1 = [refLoTenth, refHiTenth] := by
    rw [layer_refinement_structures, if_pos (by rw [hlen]; norm_num)]
    simp only [List.map_cons, List.map_nil, hov_lo, hov_hi]
    rw [merge_refinement_structures, if_neg (by rw [hint]; simp)]
  have hap : layer_axis_part layerTenth = (some 1, [axisOvTenth]) := by
    simp only [layer_axis_part, show layerTenth.min_steps_along_axis = some 1 from rfl]
    rw [if_pos (by rw [hlen]; norm_num), hlen, hcax]
    norm_num [axisOvTenth, V3.unpop, OV3.unpop,
      show layerTenth.axis = (2 : Fin 3) from rfl,
      show layerTenth.refinement_inside_sim_only = true from rfl]
  constructor
  · rw [LayerRefinementSpecE.override_structures_along_axis, hap]
    rw [layer_bounds_part, show layerTenth.bounds_refinement = some brTenth from rfl]
    simp only [hlrs]
    rw [if_pos (by
      rw [show refLoTenth.dlOf = ⟨none, none, some (1/10)⟩ from rfl]
      norm_num [leOptInf, OV3.nth, show layerTenth.axis = (2 : Fin 3) from rfl])]
    rfl
  · rw [hgs, hlen]
    norm_num

/-- C9 (amended): when `min_steps_along_axis = m` is set, the layer thickness
`L` is positive, and a `bounds_refinement` is set, the axis-direction
override (infinite in-plane, thickness `L`, axis step `L/m`) is always the
first emitted structure — it is never discarded; the bound-refinement
structures follow it if and only if their cell size is `<= L/m`, so it is
they that are discarded when strictly coarser.  The two bound-refinement
structures sit at the layer's two bound positions and, when they
geometrically overlap, are merged into a single structure on the union
bounding box (centered on the layer center, axis extent `L` plus one
refinement-box thickness, carrying the first structure's step and
`shadow=False`). -/
theorem C9_layer_override_structures (s : LayerRefinementSpecE) (g m : ℚ)
    (br : GridRefinementE)
    (h1 : s.min_steps_along_axis = some m) (h2 : 0 < s.length_axis)
    (h3 : s.bounds_refinement = some br) :
    s.override_structures_along_axis g =
      StructureE.meshOverride
          ⟨V3.unpop s.center_axis 0 s.axis, OV3.unpop (some s.length_axis) none s.axis⟩
          (OV3.unpop (some (s.length_axis / m)) none s.axis) false s.refinement_inside_sim_only
        :: (if br.grid_size g ≤ s.length_axis / m
            then layer_refinement_structures s br g else []) ∧
    layer_refinement_structures s br g =
      (if boxIntersects
          (br.override_structure (OV3.unpop (some s.bound_lo) none s.axis) g
            s.refinement_inside_sim_only).geometryOf
          (br.override_structure (OV3.unpop (some s.bound_hi) none s.axis) g
            s.refinement_inside_sim_only).geometryOf = true
        then [StructureE.meshOverride
            ⟨V3.unpop s.center_axis 0 s.axis,
             OV3.unpop (some (s.length_axis + br.grid_size g * (br.num_cells : ℚ)))
               none s.axis⟩
            (OV3.unpop (some (br.grid_size g)) none s.axis) false
            s.refinement_inside_sim_only]
        else [br.override_structure (OV3.unpop (some s.bound_lo) none s.axis) g
              s.refinement_inside_sim_only,
              br.override_structure (OV3.unpop (some s.bound_hi) none s.axis) g
              s.refinement_inside_sim_only]) := by
  have hlb : s.bound_lo ≤ s.bound_hi := by
    rw [LayerRefinementSpecE.bound_lo, LayerRefinementSpecE.bound_hi]
    linarith
  have hrs : layer_refinement_structures s br g =
      (if boxIntersects
          (br.override_structure (OV3.unpop (some s.bound_lo) none s.axis) g
            s.refinement_inside_sim_only).geometryOf
          (br.override_structure (OV3.unpop (some s.bound_hi) none s.axis) g
            s.refinement_inside_sim_only).geometryOf = true
        then [StructureE.meshOverride
            ⟨V3.unpop s.center_axis 0 s.axis,
             OV3.unpop (some (s.length_axis + br.grid_size g * (br.num_cells : ℚ)))
               none s.axis⟩
            (OV3.unpop (some (br.grid_size g)) none s.axis) false
            s.refinement_inside_sim_only]
        else [br.override_structure (OV3.unpop (some s.bound_lo) none s.axis) g
              s.refinement_inside_sim_only,
              br.override_structure (OV3.unpop (some s.bound_hi) none s.axis) g
              s.refinement_inside_sim_only]) := by
    rw [layer_refinement_structures, if_pos h2]
    simp only [List.map_cons, List.map_nil]
    rw [merge_refinement_structures]
    by_cases hint : boxIntersects
        (br.override_structure (OV3.unpop (some s.bound_lo) none s.axis) g
          s.refinement_inside_sim_only).geometryOf
        (br.override_structure (OV3.unpop (some s.bound_hi) none s.axis) g
          s.refinement_inside_sim_only).geometryOf = true
    · rw [if_pos hint, if_pos hint]
      have hc : (s.bound_lo + s.bound_hi) / 2 = s.center_axis := by
        rw [LayerRefinementSpecE.bound_lo, LayerRefinementSpecE.bound_hi]
        ring
      have hsz : s.bound_hi - s.bound_lo = s.length_axis := by
        rw [LayerRefinementSpecE.bound_lo, LayerRefinementSpecE.bound_hi]
        ring
      rw [override_structure_unpop, override_structure_unpop]
      simp only [StructureE.geometryOf, StructureE.dlOf]
      rw [union_box_eq s.axis s.bound_lo s.bound_hi
        (br.grid_size g * (br.num_cells : ℚ)) hlb]
      rw [hc, hsz]
    · rw [if_neg hint, if_neg hint]
  refine ⟨?_, hrs⟩
  rw [LayerRefinementSpecE.override_structures_along_axis]
  have hap : layer_axis_part s =
      (some (s.length_axis / m),
        [StructureE.meshOverride
          ⟨V3.unpop s.center_axis 0 s.axis, OV3.unpop (some s.length_axis) none s.axis⟩
          (OV3.unpop (some (s.length_axis / m)) none s.axis)
          false s.refinement_inside_sim_only]) := by
    simp only [layer_axis_part, h1]
    rw [if_pos h2]
  rw [hap]
  simp only [List.cons_append, List.nil_append, List.cons.injEq, true_and]
  rw [layer_bounds_part, h3]
  have hdl : ∀ rest0 r0, layer_refinement_structures s br g = r0 :: rest0 →
      r0.dlOf.nth s.axis = some (br.grid_size g) := by
    intro rest0 r0 hr
    rw [hrs] at hr
    by_cases hint : boxIntersects
        (br.override_structure (OV3.unpop (some s.bound_lo) none s.axis) g
          s.refinement_inside_sim_only).geometryOf
        (br.override_structure (OV3.unpop (some s.bound_hi) none s.axis) g
          s.refinement_inside_sim_only).geometryOf = true
    · rw [if_pos hint] at hr
      simp only [List.cons.injEq] at hr
      rw [← hr.1]
      simp only [StructureE.dlOf]
      exact OV3_nth_unpop_self _ _ _
    · rw [if_neg hint] at hr
      simp only [List.cons.injEq] at hr
      rw [← hr.1, override_structure_unpop]
      simp only [StructureE.dlOf]
      exact OV3_nth_unpop_self _ _ _
  rcases hr : layer_refinement_structures s br g with _ | ⟨r0, rest0⟩
  · rw [hrs] at hr
    by_cases hint : boxIntersects
        (br.override_structure (OV3.unpop (some s.bound_lo) none s.axis) g
          s.refinement_inside_sim_only).geometryOf
        (br.override_structure (OV3.unpop (some s.bound_hi) none s.axis) g
          s.refinement_inside_sim_only).geometryOf = true
    · rw [if_pos hint] at hr
      simp at hr
    · rw [if_neg hint] at hr
      simp at hr
  · have hd := hdl rest0 r0 hr
    simp only [hr, hd]
    by_cases hle : br.grid_size g ≤ s.length_axis / m
    · rw [if_pos hle]
      have hb : leOptInf (some (br.grid_size g)) (some (s.length_axis / m)) = true := by
        simp [leOptInf, hle]
      rw [hb]
      simp
    · rw [if_neg hle]
      have hb : leOptInf (some (br.grid_size g)) (some (s.length_axis / m)) = false := by
        simp [leOptInf, hle]
      rw [hb]
      simp

/-- C9 witness: the amended theorem instantiated at `layerTenth`. -/
theorem C9_witness :
    layerTenth.override_structures_along_axis 1 =
      StructureE.meshOverride
          ⟨V3.unpop layerTenth.center_axis 0 layerTenth.axis,
           OV3.unpop (some layerTenth.length_axis) none layerTenth.axis⟩
          (OV3.unpop (some (layerTenth.length_axis / 1)) none layerTenth.axis) false
          layerTenth.refinement_inside_sim_only
        :: (if brTenth.grid_size 1 ≤ layerTenth.length_axis / 1
            then layer_refinement_structures layerTenth brTenth 1 else []) :=
  (C9_layer_override_structures layerTenth 1 1 brTenth rfl
    (by norm_num [show layerTenth.length_axis = 1 from rfl]) rfl).1

/-! ### Claim C6: symmetry domain and structure filtering -/

theorem optGTlo_eq_false_iff (a : Option ℚ) (b : ℚ) :
    optGTlo a b = false ↔ ∀ q, a = some q → q ≤ b := by
  cases a <;> simp [optGTlo]

theorem optLThi_eq_false_iff (a : Option ℚ) (b : ℚ) :
    optLThi a b = false ↔ ∀ q, a = some q → b ≤ q := by
  cases a <;> simp [optLThi]

/-- C6: in `AbstractAutoGrid._make_coords_initial`, the structure list handed
to the mesher consists of the symmetry domain (the simulation box halved along
every axis with nonzero symmetry, its center shifted to the positive half)
followed by exactly those input structures (in order) that intersect the
symmetry domain — except that a `MeshOverrideStructure` with
`drop_outside_sim=False` is kept if and only if its bounding-box projection
onto the meshed axis overlaps the domain's projection onto that axis
(regardless of `intersects`, so even when the 3D boxes do not intersect).
`intersects` is the abstract geometry-collaborator predicate. -/
theorem C6_struct_list_filtering (intersects : V3 → V3 → BoxE → Bool) (axis : Fin 3)
    (sim_c sim_s : V3) (sym : ℤ × ℤ × ℤ) (structures : List StructureE) :
    (auto_grid_struct_list intersects axis sim_c sim_s sym structures).head? =
      some (StructureE.physical ⟨(symmetry_domain sim_c sim_s sym).1,
        (symmetry_domain sim_c sim_s sym).2.toOV3⟩) ∧
    (sym.1 ≠ 0 → (symmetry_domain sim_c sim_s sym).1.x = sim_c.x + sim_s.x / 4 ∧
      (symmetry_domain sim_c sim_s sym).2.x = sim_s.x / 2) ∧
    (sym.1 = 0 → (symmetry_domain sim_c sim_s sym).1.x = sim_c.x ∧
      (symmetry_domain sim_c sim_s sym).2.x = sim_s.x) ∧
    (sym.2.1 ≠ 0 → (symmetry_domain sim_c sim_s sym).1.y = sim_c.y + sim_s.y / 4 ∧
      (symmetry_domain sim_c sim_s sym).2.y = sim_s.y / 2) ∧
    (sym.2.1 = 0 → (symmetry_domain sim_c sim_s sym).1.y = sim_c.y ∧
      (symmetry_domain sim_c sim_s sym).2.y = sim_s.y) ∧
    (sym.2.2 ≠ 0 → (symmetry_domain sim_c sim_s sym).1.z = sim_c.z + sim_s.z / 4 ∧
      (symmetry_domain sim_c sim_s sym).2.z = sim_s.z / 2) ∧
    (sym.2.2 = 0 → (symmetry_domain sim_c sim_s sym).1.z = sim_c.z ∧
      (symmetry_domain sim_c sim_s sym).2.z = sim_s.z) ∧
    (∀ st ∈ structures.drop 1, ∀ g dl sh,
      st = StructureE.meshOverride g dl sh false →
      (st ∈ (auto_grid_struct_list intersects axis sim_c sim_s sym structures).tail ↔
        ((∀ q, g.lo axis = some q →
            q ≤ (symmetry_domain sim_c sim_s sym).1.nth axis +
              (symmetry_domain sim_c sim_s sym).2.nth axis / 2) ∧
         (∀ q, g.hi axis = some q →
            (symmetry_domain sim_c sim_s sym).1.nth axis -
              (symmetry_domain sim_c sim_s sym).2.nth axis / 2 ≤ q)))) ∧
    (∀ st ∈ structures.drop 1, (∀ g dl sh, st ≠ StructureE.meshOverride g dl sh false) →
      (st ∈ (auto_grid_struct_list intersects axis sim_c sim_s sym structures).tail ↔
        intersects (symmetry_domain sim_c sim_s sym).1 (symmetry_domain sim_c sim_s sym).2
          st.geometryOf = true)) ∧
    (auto_grid_struct_list intersects axis sim_c sim_s sym structures).tail.Sublist
      (structures.drop 1) := by
  have htail : (auto_grid_struct_list intersects axis sim_c sim_s sym structures).tail =
      (structures.drop 1).filter (fun s =>
        ! drop_structure_p intersects axis (symmetry_domain sim_c sim_s sym).1
          (symmetry_domain sim_c sim_s sym).2 s) := rfl
  refine ⟨rfl, ?_, ?_, ?_, ?_, ?_, ?_, ?_, ?_, ?_⟩
  · intro h
    simp [symmetry_domain, halveAxis, if_pos h]
  · intro h
    simp [symmetry_domain, halveAxis, h]
  · intro h
    simp [symmetry_domain, halveAxis, if_pos h]
  · intro h
    simp [symmetry_domain, halveAxis, h]
  · intro h
    simp [symmetry_domain, halveAxis, if_pos h]
  · intro h
    simp [symmetry_domain, halveAxis, h]
  · intro st hmem g dl sh hst
    subst hst
    rw [htail, List.mem_filter]
    simp only [hmem, true_and]
    rw [drop_structure_p]
    rw [Bool.not_eq_true']
    rw [Bool.or_eq_false_iff]
    rw [optGTlo_eq_false_iff, optLThi_eq_false_iff]
  · intro st hmem hne
    rw [htail, List.mem_filter]
    simp only [hmem, true_and]
    rcases st with g | ⟨g, dl, sh, dr⟩
    · rw [drop_structure_p]
      · simp [StructureE.geometryOf]
      · intro a b c h
        simp at h
    · cases dr
      · exact absurd rfl (hne g dl sh)
      · rw [drop_structure_p]
        · simp [StructureE.geometryOf]
        · intro a b c h
          simp at h
  · rw [htail]
    exact List.filter_sublist _

/-- C6 witness: the head of the filtered list at a concrete call is the
symmetry-domain structure. -/
theorem C6_witness :
    (auto_grid_struct_list (fun _ _ _ => true) 0 ⟨0, 0, 0⟩ ⟨1, 1, 1⟩ (1, 0, 0) []).head? =
      some (StructureE.physical ⟨(symmetry_domain ⟨0, 0, 0⟩ ⟨1, 1, 1⟩ (1, 0, 0)).1,
        (symmetry_domain ⟨0, 0, 0⟩ ⟨1, 1, 1⟩ (1, 0, 0)).2.toOV3⟩) :=
  (C6_struct_list_filtering (fun _ _ _ => true) 0 ⟨0, 0, 0⟩ ⟨1, 1, 1⟩ (1, 0, 0) []).1

/-- The default last entry of a nonempty list is a member of it. -/
theorem getLastD_mem (l : List ℚ) (h : l ≠ []) : l.getLastD 0 ∈ l := by
  rw [List.getLastD_eq_getLast?, List.getLast?_eq_getLast l h]
  exact List.getLast_mem h

/-- In a strictly increasing list every member is at most the last entry. -/
theorem mem_le_getLastD (l : List ℚ) (hs : List.Pairwise (· < ·) l) (x : ℚ) (hx : x ∈ l) :
    x ≤ l.getLastD 0 := by
  induction l with
  | nil => simp at hx
  | cons a t ih =>
    rw [List.pairwise_cons] at hs
    rcases List.mem_cons.mp hx with hxa | hxt
    · subst hxa
      cases t with
      | nil => simp
      | cons b t2 =>
        have hlast : (b :: t2).getLastD 0 ∈ b :: t2 := getLastD_mem _ (by simp)
        have : x < (b :: t2).getLastD 0 := hs.1 _ hlast
        simpa using this.le
    · cases t with
      | nil => simp at hxt
      | cons b t2 =>
        have := ih hs.2 hxt
        simpa using this

/-- `getLastD` ignores a cons onto a nonempty tail. -/
theorem getLastD_cons_ne (a : ℚ) (l : List ℚ) (h : l ≠ []) :
    (a :: l).getLastD 0 = l.getLastD 0 := by
  cases l with
  | nil => simp at h
  | cons b t => simp [List.getLastD_eq_getLast?, List.getLast?_eq_getLast]

/-- In a strictly increasing list every member is at least the head. -/
theorem headI_le_mem (l : List ℚ) (hs : List.Pairwise (· < ·) l) (x : ℚ) (hx : x ∈ l) :
    l.headI ≤ x := by
  cases l with
  | nil => simp at hx
  | cons a t =>
    rw [List.pairwise_cons] at hs
    rcases List.mem_cons.mp hx with h1 | h2
    · subst h1
      simp
    · simpa using (hs.1 x h2).le

/-- The last gap of a strictly increasing list of length at least 2 is positive. -/
theorem lastGap_pos (l : List ℚ) (hs : List.Pairwise (· < ·) l) (h2 : 2 ≤ l.length) :
    0 < lastGap l := by
  rw [lastGap]
  have hrev : List.Pairwise (fun a b => b < a) l.reverse := by
    rw [List.pairwise_reverse]
    exact hs
  rcases hr : l.reverse with _ | ⟨a, _ | ⟨b, t⟩⟩
  · rw [List.reverse_eq_nil_iff] at hr
    subst hr
    simp at h2
  · have hlen : l.length = 1 := by
      have := congrArg List.length hr
      simpa using this
    omega
  · rw [hr] at hrev
    rw [List.pairwise_cons] at hrev
    have := hrev.1 b (by simp)
    simp only
    linarith

/-- Behaviour of `extendLowFuel` on a nonempty list whose head is at least the
lower bound: the head never drops below the bound, the last entry and strict
sortedness are preserved, and with enough fuel the loop reaches its exit
condition `head - dl_min < bound_min`. -/
theorem extendLowFuel_spec (dlm bmin : ℚ) (hdlm : 0 < dlm) :
    ∀ (fuel : ℕ) (a : ℚ) (rest : List ℚ), bmin ≤ a →
      ∃ b t, extendLowFuel dlm bmin fuel (a :: rest) = b :: t ∧
        bmin ≤ b ∧
        (a :: rest).getLastD 0 = (b :: t).getLastD 0 ∧
        (List.Pairwise (· < ·) (a :: rest) → List.Pairwise (· < ·) (b :: t)) ∧
        ((fuel : ℚ) * dlm > a - bmin → b - dlm < bmin) := by
  intro fuel
  induction fuel with
  | zero =>
    intro a rest ha
    refine ⟨a, rest, rfl, ha, rfl, fun h => h, ?_⟩
    intro h
    push_cast at h
    linarith
  | succ n ih =>
    intro a rest ha
    by_cases hc : bmin ≤ a - dlm
    · obtain ⟨b, t, heq, hb, hlast, hpw, hexit⟩ := ih (a - dlm) (a :: rest) hc
      refine ⟨b, t, ?_, hb, ?_, ?_, ?_⟩
      · rw [extendLowFuel, if_pos hc]
        exact heq
      · rw [← hlast]
        exact (getLastD_cons_ne _ _ (by simp)).symm
      · intro hpw0
        refine hpw ?_
        rw [List.pairwise_cons]
        refine ⟨?_, hpw0⟩
        intro x hx
        rcases List.mem_cons.mp hx with h1 | h2
        · subst h1
          linarith
        · rw [List.pairwise_cons] at hpw0
          have := hpw0.1 x h2
          linarith
      · intro h
        refine hexit ?_
        push_cast at h ⊢
        linarith
    · refine ⟨a, rest, ?_, ha, rfl, fun h => h, ?_⟩
      · rw [extendLowFuel, if_neg hc]
      · intro _
        linarith [not_le.mp hc]

/-- `extend_low` (the lower extension `while` loop with its canonical fuel):
for a positive step and a head at least the bound, it terminates with a head
in `[bound_min, bound_min + dl_min)`, preserving the last entry and strict
sortedness. -/
theorem extend_low_spec (dlm bmin : ℚ) (hdlm : 0 < dlm) (a : ℚ) (rest : List ℚ)
    (ha : bmin ≤ a) :
    ∃ b t, extend_low dlm bmin (a :: rest) = b :: t ∧
      bmin ≤ b ∧ b - dlm < bmin ∧
      (a :: rest).getLastD 0 = (b :: t).getLastD 0 ∧
      (List.Pairwise (· < ·) (a :: rest) → List.Pairwise (· < ·) (b :: t)) := by
  have hfuel : ((Int.toNat ⌈(a - bmin) / dlm⌉ + 1 : ℕ) : ℚ) * dlm > a - bmin := by
    have h1 : ((a - bmin) / dlm) ≤ ((⌈(a - bmin) / dlm⌉ : ℤ) : ℚ) := Int.le_ceil _
    have h2 : ((⌈(a - bmin) / dlm⌉ : ℤ) : ℚ) ≤ ((Int.toNat ⌈(a - bmin) / dlm⌉ : ℕ) : ℚ) := by
      exact_mod_cast Int.self_le_toNat _
    have h3 : (a - bmin) / dlm < ((Int.toNat ⌈(a - bmin) / dlm⌉ + 1 : ℕ) : ℚ) := by
      push_cast
      push_cast at h2
      linarith
    calc a - bmin = ((a - bmin) / dlm) * dlm := by field_simp
    _ < ((Int.toNat ⌈(a - bmin) / dlm⌉ + 1 : ℕ) : ℚ) * dlm := by
        exact mul_lt_mul_of_pos_right h3 hdlm
  obtain ⟨b, t, heq, hb, hlast, hpw, hexit⟩ :=
    extendLowFuel_spec dlm bmin hdlm (Int.toNat ⌈(a - bmin) / dlm⌉ + 1) a rest ha
  exact ⟨b, t, heq, hb, hexit hfuel, hlast, hpw⟩

/-- Appending one element does not change the head of a nonempty list. -/
theorem headI_append_single (l : List ℚ) (v : ℚ) (h : l ≠ []) :
    (l ++ [v]).headI = l.headI := by
  cases l with
  | nil => simp at h
  | cons a t => simp

/-- Behaviour of `extendHighFuel` on a nonempty list whose last entry is at
most the upper bound: the result is nonempty with the same head, its last
entry never exceeds the bound, strict sortedness is preserved, and with
enough fuel the loop reaches its exit condition `bound_max < last + dl_max`. -/
theorem extendHighFuel_spec (dlM bmax : ℚ) (hdlM : 0 < dlM) :
    ∀ (fuel : ℕ) (l : List ℚ), l ≠ [] → l.getLastD 0 ≤ bmax →
      extendHighFuel dlM bmax fuel l ≠ [] ∧
      (extendHighFuel dlM bmax fuel l).headI = l.headI ∧
      (extendHighFuel dlM bmax fuel l).getLastD 0 ≤ bmax ∧
      (List.Pairwise (· < ·) l → List.Pairwise (· < ·) (extendHighFuel dlM bmax fuel l)) ∧
      ((fuel : ℚ) * dlM > bmax - l.getLastD 0 →
        bmax < (extendHighFuel dlM bmax fuel l).getLastD 0 + dlM) := by
  intro fuel
  induction fuel with
  | zero =>
    intro l hne hle
    rw [extendHighFuel]
    refine ⟨hne, rfl, hle, fun h => h, ?_⟩
    intro h
    push_cast at h
    linarith
  | succ n ih =>
    intro l hne hle
    match l, hne with
    | a :: rest, _ =>
      by_cases hc : (a :: rest).getLastD 0 + dlM ≤ bmax
      · have hne2 : (a :: rest) ++ [(a :: rest).getLastD 0 + dlM] ≠ [] := by simp
        have hlast2 : ((a :: rest) ++ [(a :: rest).getLastD 0 + dlM]).getLastD 0 =
            (a :: rest).getLastD 0 + dlM := by
          rw [List.getLastD_eq_getLast?, List.getLast?_concat]
          rfl
        obtain ⟨ih1, ih2, ih3, ih4, ih5⟩ := ih ((a :: rest) ++ [(a :: rest).getLastD 0 + dlM])
          hne2 (by rw [hlast2]; exact hc)
        have heq : extendHighFuel dlM bmax (n + 1) (a :: rest) =
            extendHighFuel dlM bmax n ((a :: rest) ++ [(a :: rest).getLastD 0 + dlM]) := by
          rw [extendHighFuel, if_pos hc]
        rw [heq]
        refine ⟨ih1, ?_, ih3, ?_, ?_⟩
        · rw [ih2, headI_append_single _ _ (by simp)]
        · intro hpw
          refine ih4 ?_
          rw [List.pairwise_append]
          refine ⟨hpw, List.pairwise_singleton _ _, ?_⟩
          intro x hx y hy
          simp only [List.mem_singleton] at hy
          subst hy
          have := mem_le_getLastD _ hpw x hx
          linarith
        · intro h
          refine ih5 ?_
          rw [hlast2]
          push_cast at h ⊢
          linarith
      · have heq : extendHighFuel dlM bmax (n + 1) (a :: rest) = a :: rest := by
          rw [extendHighFuel, if_neg hc]
        rw [heq]
        refine ⟨by simp, rfl, hle, fun h => h, ?_⟩
        intro _
        linarith [not_le.mp hc]

/-- `extend_high` (the upper extension `while` loop with its canonical fuel):
for a positive step and a last entry at most the bound, it terminates with a
last entry in `(bound_max - dl_max, bound_max]`, preserving the head and
strict sortedness. -/
theorem extend_high_spec (dlM bmax : ℚ) (hdlM : 0 < dlM) (l : List ℚ)
    (hne : l ≠ []) (hle : l.getLastD 0 ≤ bmax) :
    extend_high dlM bmax l ≠ [] ∧
    (extend_high dlM bmax l).headI = l.headI ∧
    (extend_high dlM bmax l).getLastD 0 ≤ bmax ∧
    bmax < (extend_high dlM bmax l).getLastD 0 + dlM ∧
    (List.Pairwise (· < ·) l → List.Pairwise (· < ·) (extend_high dlM bmax l)) := by
  have hfuel : ((Int.toNat ⌈(bmax - l.getLastD 0) / dlM⌉ + 1 : ℕ) : ℚ) * dlM >
      bmax - l.getLastD 0 := by
    have h1 : ((bmax - l.getLastD 0) / dlM) ≤ ((⌈(bmax - l.getLastD 0) / dlM⌉ : ℤ) : ℚ) :=
      Int.le_ceil _
    have h2 : ((⌈(bmax - l.getLastD 0) / dlM⌉ : ℤ) : ℚ) ≤
        ((Int.toNat ⌈(bmax - l.getLastD 0) / dlM⌉ : ℕ) : ℚ) := by
      exact_mod_cast Int.self_le_toNat _
    have h3 : (bmax - l.getLastD 0) / dlM <
        ((Int.toNat ⌈(bmax - l.getLastD 0) / dlM⌉ + 1 : ℕ) : ℚ) := by
      push_cast
      push_cast at h2
      linarith
    calc bmax - l.getLastD 0 = ((bmax - l.getLastD 0) / dlM) * dlM := by field_simp
    _ < _ := mul_lt_mul_of_pos_right h3 hdlM
  match l, hne with
  | a :: rest, _ =>
    obtain ⟨h1, h2, h3, h4, h5⟩ := extendHighFuel_spec dlM bmax hdlM
      (Int.toNat ⌈(bmax - (a :: rest).getLastD 0) / dlM⌉ + 1) (a :: rest) (by simp) hle
    exact ⟨h1, h2, h3, h5 hfuel, h4⟩

/-- `searchsorted_right` on a weakly sorted array: entries strictly before the
insertion point are at most the key, entries at or after it are above it. -/
theorem sorted_countP_le (l : List ℚ) (c : ℚ) (hs : List.Pairwise (· ≤ ·) l) :
    (0 < searchsorted_right l c → l.getD (searchsorted_right l c - 1) 0 ≤ c) ∧
    (searchsorted_right l c < l.length → c < l.getD (searchsorted_right l c) 0) := by
  induction l with
  | nil => simp [searchsorted_right]
  | cons a t ih =>
    rw [List.pairwise_cons] at hs
    obtain ⟨ha, ht⟩ := hs
    have hcount : searchsorted_right (a :: t) c =
        (if a ≤ c then 1 else 0) + searchsorted_right t c := by
      rw [searchsorted_right, searchsorted_right, List.countP_cons]
      by_cases hac : a ≤ c
      · simp [hac]
        omega
      · simp [hac]
    by_cases hac : a ≤ c
    · rw [hcount, if_pos hac]
      obtain ⟨ih1, ih2⟩ := ih ht
      constructor
      · intro _
        rcases Nat.eq_zero_or_pos (searchsorted_right t c) with h0 | hpos
        · simp [h0, hac, List.getD]
        · have he : 1 + searchsorted_right t c - 1 = (searchsorted_right t c - 1) + 1 := by
            omega
          rw [he]
          simpa [List.getD] using ih1 hpos
      · intro hlt
        simp only [List.length_cons] at hlt
        have hlt2 : searchsorted_right t c < t.length := by omega
        have he : 1 + searchsorted_right t c = searchsorted_right t c + 1 := by omega
        rw [he]
        simpa [List.getD] using ih2 hlt2
    · have hzero : searchsorted_right t c = 0 := by
        rw [searchsorted_right, List.countP_eq_zero]
        intro x hx
        simp only [decide_eq_true_eq]
        have := ha x hx
        intro hxc
        exact hac (le_trans this hxc)
      rw [hcount, if_neg hac, hzero]
      constructor
      · intro h
        omega
      · intro _
        simp only [List.getD]
        simpa using not_le.mp hac

/-- The interior case of `slice_around`: the slice `[ind - 1 : ind + 1]` is
the two entries around the index. -/
theorem slice_around_eq (l : List ℚ) (ind : ℕ) (h1 : 1 ≤ ind) (h2 : ind < l.length) :
    slice_around l ind = [l.getD (ind - 1) 0, l.getD ind 0] := by
  rw [slice_around, if_neg (by omega)]
  have hd1 : ind - 1 < l.length := by omega
  have he : ind - 1 + 1 = ind := by omega
  have e1 := List.drop_eq_getElem_cons hd1
  rw [he] at e1
  rw [e1, List.drop_eq_getElem_cons h2]
  simp only [List.take_succ_cons, List.take_zero]
  simp [List.getD_eq_getElem?_getD, List.getElem?_eq_getElem hd1, List.getElem?_eq_getElem h2]

/-- An in-range `getD` is a member of the list. -/
theorem getD_mem (l : List ℚ) (i : ℕ) (h : i < l.length) : l.getD i 0 ∈ l := by
  simp only [List.getD_eq_getElem?_getD, List.getElem?_eq_getElem h, Option.getD_some]
  exact List.getElem_mem h

/-- The default last entry of a nonempty list is its entry at index
`length - 1`. -/
theorem getLastD_eq_getD (l : List ℚ) (h : l ≠ []) :
    l.getLastD 0 = l.getD (l.length - 1) 0 := by
  rw [List.getLastD_eq_getLast?, List.getLast?_eq_getLast l h, List.getLast_eq_getElem]
  have hlt : l.length - 1 < l.length := by
    cases l with
    | nil => simp at h
    | cons a t => simp
  simp [List.getD_eq_getElem?_getD, List.getElem?_eq_getElem hlt]

/-- **C7.** `_postprocess_unaligned_grid` on a strictly increasing boundary
array: (a) it raises `SetupError` exactly when the array misses the
eps-relaxed domain entirely; (b) when the domain size is 0 and the center lies
within the (unrelaxed) array range, it returns exactly two array values
bracketing the center; (c) when the size is nonzero and at least two entries
survive clipping to the relaxed bounds, it returns a strictly increasing array
whose first entry lies in `[bound_min, bound_min + dl_min)` and last entry in
`(bound_max - dl_max, bound_max]` — the extension loops stop BEFORE crossing
the domain bounds, so each end may be left uncovered by up to one step,
contrary to the claim that the domain "is never left under-covered"; (d) when
the size is nonzero and fewer than two entries survive clipping (yet the raw
array overlaps the relaxed domain), indexing `bound_coords[1]` crashes with an
`IndexError` instead of returning or raising a `SetupError`. -/
theorem C7_clip_and_extend (center size : ℚ) (c0 : ℚ) (rest : List ℚ)
    (hsort : List.Pairwise (· < ·) (c0 :: rest)) :
    (∀ eps relax, postprocess_unaligned_grid eps center size relax (c0 :: rest) =
        PostResult.setupError ↔
      (center + size / 2 + eps < c0 ∨
        center - size / 2 - eps > (c0 :: rest).getLastD 0)) ∧
    (size = 0 → c0 ≤ center → center ≤ (c0 :: rest).getLastD 0 → 2 ≤ (c0 :: rest).length →
      ∀ relax, ∃ x y,
        postprocess_unaligned_grid 0 center size relax (c0 :: rest) = PostResult.ok [x, y] ∧
        x ∈ (c0 :: rest) ∧ y ∈ (c0 :: rest) ∧ x ≤ center ∧ center ≤ y) ∧
    (∀ eps a b r2, size ≠ 0 →
      ((c0 :: rest).filter (fun x => decide (x ≤ center + size / 2 + eps))).filter
          (fun x => decide (center - size / 2 - eps ≤ x)) = a :: b :: r2 →
      ∃ l2,
        postprocess_unaligned_grid eps center size false (c0 :: rest) = PostResult.ok l2 ∧
        List.Pairwise (· < ·) l2 ∧
        center - size / 2 - eps ≤ l2.headI ∧
        l2.headI - (b - a) < center - size / 2 - eps ∧
        l2.getLastD 0 ≤ center + size / 2 + eps ∧
        center + size / 2 + eps < l2.getLastD 0 + lastGap (a :: b :: r2)) ∧
    (∀ eps relax, size ≠ 0 →
      ¬(center + size / 2 + eps < c0 ∨
        center - size / 2 - eps > (c0 :: rest).getLastD 0) →
      (((c0 :: rest).filter (fun x => decide (x ≤ center + size / 2 + eps))).filter
          (fun x => decide (center - size / 2 - eps ≤ x))).length ≤ 1 →
      postprocess_unaligned_grid eps center size relax (c0 :: rest) =
        PostResult.indexError) := by
  refine ⟨?_, ?_, ?_, ?_⟩
  · -- (a) setup error iff the raw array misses the relaxed domain entirely
    intro eps relax
    constructor
    · intro hres
      by_contra hcond
      simp only [postprocess_unaligned_grid] at hres
      rw [if_neg hcond] at hres
      by_cases hsz : size = 0
      · rw [if_pos hsz] at hres
        cases hres
      · rw [if_neg hsz] at hres
        rcases hcl : ((c0 :: rest).filter (fun x => decide (x ≤ center + size / 2 + eps))).filter
            (fun x => decide (center - size / 2 - eps ≤ x)) with _ | ⟨a, _ | ⟨b, r2⟩⟩ <;>
          simp only [hcl] at hres
        · cases hres
        · cases hres
        · by_cases hdl : (b - a ≤ 0 ∨ lastGap (a :: b :: r2) ≤ 0)
          · rw [if_pos hdl] at hres
            cases hres
          · rw [if_neg hdl] at hres
            cases hres
    · intro h
      simp only [postprocess_unaligned_grid]
      rw [if_pos h]
  · -- (b) zero domain size with exact bounds: two entries bracketing the center
    intro hsz hc0 hlast hlen relax
    subst hsz
    have hcond : ¬(center + 0 / 2 + 0 < c0 ∨
        center - 0 / 2 - 0 > (c0 :: rest).getLastD 0) := by
      push_neg
      constructor <;> [linarith; linarith]
    have hle : List.Pairwise (· ≤ ·) (c0 :: rest) := hsort.imp le_of_lt
    have hcnt := sorted_countP_le (c0 :: rest) center hle
    have hpos : 0 < searchsorted_right (c0 :: rest) center := by
      rw [searchsorted_right]
      rw [List.countP_pos_iff]
      exact ⟨c0, by simp, by simpa using hc0⟩
    simp only [postprocess_unaligned_grid]
    rw [if_neg hcond, if_pos trivial]
    by_cases hclamp : (c0 :: rest).length ≤ searchsorted_right (c0 :: rest) center
    · rw [if_pos hclamp]
      have hn : searchsorted_right (c0 :: rest) center = (c0 :: rest).length := by
        have : searchsorted_right (c0 :: rest) center ≤ (c0 :: rest).length :=
          List.countP_le_length _
        omega
      have h1 : 1 ≤ (c0 :: rest).length - 1 := by omega
      have h2 : (c0 :: rest).length - 1 < (c0 :: rest).length := by omega
      rw [slice_around_eq _ _ h1 h2]
      refine ⟨_, _, rfl, getD_mem _ _ (by omega), getD_mem _ _ h2, ?_, ?_⟩
      · -- getD (len - 2) ≤ getD (len - 1) ≤ center
        have hmono : (c0 :: rest).getD ((c0 :: rest).length - 1 - 1) 0 ≤
            (c0 :: rest).getD ((c0 :: rest).length - 1) 0 := by
          have hij : (c0 :: rest).length - 1 - 1 < (c0 :: rest).length - 1 := by omega
          have hij2 : (c0 :: rest).length - 1 - 1 < (c0 :: rest).length := by omega
          have hstep := (List.pairwise_iff_getElem.mp hsort)
            ((c0 :: rest).length - 1 - 1) ((c0 :: rest).length - 1) hij2 h2 hij
          simp only [List.getD_eq_getElem?_getD, List.getElem?_eq_getElem hij2,
            List.getElem?_eq_getElem h2, Option.getD_some]
          exact hstep.le
        have hcenter : (c0 :: rest).getD ((c0 :: rest).length - 1) 0 ≤ center := by
          have := hcnt.1 hpos
          rw [hn] at this
          exact this
        linarith
      · -- center ≤ getD (len - 1) = getLastD
        rw [← getLastD_eq_getD _ (by simp)]
        exact hlast
    · rw [if_neg hclamp]
      have hlt : searchsorted_right (c0 :: rest) center < (c0 :: rest).length := by omega
      rw [slice_around_eq _ _ hpos hlt]
      exact ⟨_, _, rfl, getD_mem _ _ (by omega), getD_mem _ _ hlt, hcnt.1 hpos,
        (hcnt.2 hlt).le⟩
  · -- (c) generic size: clip then extend, staying within the relaxed bounds
    intro eps a b r2 hsz hcl
    have hclsort : List.Pairwise (· < ·) (a :: b :: r2) := by
      rw [← hcl]
      exact (hsort.filter _).filter _
    have hab : a < b := by
      rw [List.pairwise_cons] at hclsort
      exact hclsort.1 b (by simp)
    have hgap : 0 < lastGap (a :: b :: r2) := lastGap_pos _ hclsort (by simp)
    have hmem : ∀ x ∈ a :: b :: r2, x ∈ (c0 :: rest) ∧
        x ≤ center + size / 2 + eps ∧ center - size / 2 - eps ≤ x := by
      intro x hx
      rw [← hcl] at hx
      have h1 := List.mem_filter.mp hx
      have h2 := List.mem_filter.mp h1.1
      refine ⟨h2.1, by simpa using h2.2, by simpa using h1.2⟩
    obtain ⟨hamem, habd, habd2⟩ := hmem a (by simp)
    have hcond : ¬(center + size / 2 + eps < c0 ∨
        center - size / 2 - eps > (c0 :: rest).getLastD 0) := by
      push_neg
      have hc0a : c0 ≤ a := headI_le_mem _ hsort a hamem
      have halast : a ≤ (c0 :: rest).getLastD 0 := mem_le_getLastD _ hsort a hamem
      constructor <;> linarith
    have hlastcl : (a :: b :: r2).getLastD 0 ≤ center + size / 2 + eps := by
      have := hmem ((a :: b :: r2).getLastD 0) (getLastD_mem _ (by simp))
      exact this.2.1
    have hdl : ¬(b - a ≤ 0 ∨ lastGap (a :: b :: r2) ≤ 0) := by
      push_neg
      constructor <;> linarith
    obtain ⟨b', t, heqlow, hb'lo, hb'exit, hlastpres, hpwlow⟩ :=
      extend_low_spec (b - a) (center - size / 2 - eps) (by linarith) a (b :: r2) habd2
    have hlowsort : List.Pairwise (· < ·) (b' :: t) := hpwlow hclsort
    have hlowlast : (b' :: t).getLastD 0 ≤ center + size / 2 + eps := by
      rw [← hlastpres]
      exact hlastcl
    obtain ⟨hhne, hhhead, hhlast, hhexit, hpwhigh⟩ :=
      extend_high_spec (lastGap (a :: b :: r2)) (center + size / 2 + eps) hgap
        (b' :: t) (by simp) hlowlast
    simp only [postprocess_unaligned_grid]
    rw [if_neg hcond, if_neg hsz]
    simp only [hcl]
    rw [if_neg hdl, heqlow, if_neg Bool.false_ne_true]
    refine ⟨extend_high (lastGap (a :: b :: r2)) (center + size / 2 + eps) (b' :: t),
      rfl, ?_, ?_, ?_, ?_, ?_⟩
    · exact hpwhigh hlowsort
    · rw [hhhead]
      simpa using hb'lo
    · rw [hhhead]
      simpa using hb'exit
    · exact hhlast
    · exact hhexit
  · -- (d) fewer than two boundaries survive clipping: IndexError
    intro eps relax hsz hcond hlen
    simp only [postprocess_unaligned_grid]
    rw [if_neg hcond, if_neg hsz]
    rcases hcl : ((c0 :: rest).filter (fun x => decide (x ≤ center + size / 2 + eps))).filter
        (fun x => decide (center - size / 2 - eps ≤ x)) with _ | ⟨a, _ | ⟨b, r2⟩⟩
    · simp only [hcl]
    · simp only [hcl]
    · rw [hcl] at hlen
      simp at hlen
/-- C7 counterexample: boundaries `[-2/5, 2/5]` on the domain `[-1/2, 1/2]`
(center 0, size 1, no relaxation) are returned unchanged — the first returned
boundary `-2/5` is strictly greater than the domain minimum `-1/2`, so the
domain IS left under-covered, contrary to the claim that the array is extended
"until the returned array fully covers the domain". -/
theorem C7_counterexample :
    postprocess_unaligned_grid 0 0 1 false [-(2/5 : ℚ), 2/5] =
      PostResult.ok [-(2/5 : ℚ), 2/5] ∧
    (0 : ℚ) - 1 / 2 - 0 < -(2/5 : ℚ) := by
  constructor
  · have hcl : (([-(2/5 : ℚ), 2/5]).filter (fun x => decide (x ≤ 0 + 1 / 2 + 0))).filter
        (fun x => decide (0 - 1 / 2 - 0 ≤ x)) = [-(2/5 : ℚ), 2/5] := by
      norm_num [List.filter]
    have hgap : lastGap [-(2/5 : ℚ), 2/5] = 4/5 := by
      norm_num [lastGap]
    have hlastD : ([-(2/5 : ℚ), 2/5]).getLastD 0 = 2/5 := by
      norm_num
    have hceil1 : (⌈((-(2/5 : ℚ)) - ((0 : ℚ) - 1 / 2 - 0)) / ((2/5 : ℚ) - -(2/5))⌉ : ℤ) = 1 := by
      rw [Int.ceil_eq_iff]
      constructor <;> norm_num
    have hceil2 : (⌈(((0 : ℚ) + 1 / 2 + 0) - ([-(2/5 : ℚ), 2/5]).getLastD 0) /
        lastGap [-(2/5 : ℚ), 2/5]⌉ : ℤ) = 1 := by
      rw [hlastD, hgap, Int.ceil_eq_iff]
      constructor <;> norm_num
    have hlow : extend_low ((2/5 : ℚ) - -(2/5)) ((0 : ℚ) - 1 / 2 - 0) [-(2/5 : ℚ), 2/5] =
        [-(2/5 : ℚ), 2/5] := by
      rw [extend_low]
      rw [hceil1]
      rw [show Int.toNat 1 + 1 = 2 from rfl]
      rw [extendLowFuel, if_neg (by norm_num)]
    have hhigh : extend_high (lastGap [-(2/5 : ℚ), 2/5]) ((0 : ℚ) + 1 / 2 + 0)
        [-(2/5 : ℚ), 2/5] = [-(2/5 : ℚ), 2/5] := by
      rw [extend_high]
      rw [hceil2]
      rw [show Int.toNat 1 + 1 = 2 from rfl]
      rw [extendHighFuel, if_neg (by rw [hlastD, hgap]; norm_num)]
    simp only [postprocess_unaligned_grid]
    rw [if_neg (by rw [hlastD]; norm_num), if_neg (by norm_num : (1 : ℚ) ≠ 0)]
    simp only [hcl]
    rw [if_neg (by rw [hgap]; norm_num), hlow, hhigh, if_neg Bool.false_ne_true]
  · norm_num
/-- C7 witness: the clip-and-extend branch at a concrete input. -/
theorem C7_witness :
    List.Pairwise (· < ·) ((0 : ℚ) :: [1]) ∧
    (∃ l2, postprocess_unaligned_grid 0 (1/2) 1 false ((0 : ℚ) :: [1]) = PostResult.ok l2 ∧
      List.Pairwise (· < ·) l2 ∧
      1/2 - 1 / 2 - 0 ≤ l2.headI ∧
      l2.headI - ((1 : ℚ) - 0) < 1/2 - 1 / 2 - 0 ∧
      l2.getLastD 0 ≤ 1/2 + 1 / 2 + 0 ∧
      1/2 + 1 / 2 + 0 < l2.getLastD 0 + lastGap ((0 : ℚ) :: 1 :: [])) := by
  have hsort : List.Pairwise (· < ·) ((0 : ℚ) :: [1]) := by norm_num
  have hcl : (((0 : ℚ) :: [1]).filter (fun x => decide (x ≤ 1/2 + 1 / 2 + 0))).filter
      (fun x => decide (1/2 - 1 / 2 - 0 ≤ x)) = (0 : ℚ) :: 1 :: [] := by
    norm_num [List.filter]
  exact ⟨hsort, (C7_clip_and_extend (1/2) 1 0 [1] hsort).2.2.1 0 0 1 [] one_ne_zero hcl⟩

/-- `np.argmin`-selected nearest value is an element of the array. -/
theorem nearestVal_mem (c a : ℚ) (t : List ℚ) : nearestVal c (a :: t) ∈ a :: t := by
  rw [nearestVal]
  induction t generalizing a with
    | nil => simp
    | cons b t2 ih =>
      rw [List.foldl_cons]
      by_cases hc : |c - b| < |c - a|
      · rw [if_pos hc]
        rcases List.mem_cons.mp (ih b) with h1 | h2
        · simp [h1]
        · simp [h2]
      · rw [if_neg hc]
        rcases List.mem_cons.mp (ih a) with h1 | h2
        · simp [h1]
        · simp [h2]

/-- In a weakly increasing list every member is at least the head. -/
theorem headI_le_mem_of_le (l : List ℚ) (hs : List.Pairwise (· ≤ ·) l) (x : ℚ)
    (hx : x ∈ l) : l.headI ≤ x := by
  cases l with
  | nil => simp at hx
  | cons a t =>
    rw [List.pairwise_cons] at hs
    rcases List.mem_cons.mp hx with h1 | h2
    · subst h1
      simp
    · simpa using hs.1 x h2

/-- Reversing a map over `List.range` re-indexes it by `n - 1 - i`. -/
theorem reverse_map_range (n : ℕ) (f : ℕ → ℚ) :
    ((List.range n).map f).reverse = (List.range n).map (fun i => f (n - 1 - i)) := by
  induction n generalizing f with
  | zero => simp
  | succ m ih =>
    conv_lhs => rw [List.range_succ]
    conv_rhs => rw [List.range_succ_eq_map]
    rw [List.map_append, List.reverse_append]
    simp only [List.map_cons, List.map_map, List.reverse_singleton, List.singleton_append]
    rw [ih]
    norm_num
    intro a ha
    congr 1
    omega
/-- The symmetry-folded array `mirror ++ (c :: kept_tail)` is mapped onto its
own reverse by the reflection `b ↦ 2c - b` about the center. -/
theorem fold_palindrome (c : ℚ) (k' : List ℚ) :
    ((k'.reverse.map (fun b => 2 * c - b)) ++ (c :: k')).map (fun b => 2 * c - b) =
    ((k'.reverse.map (fun b => 2 * c - b)) ++ (c :: k')).reverse := by
  have hrr : ∀ l : List ℚ, (l.map (fun b => 2 * c - b)).map (fun b => 2 * c - b) = l := by
    intro l
    rw [List.map_map]
    have : ((fun b => 2 * c - b) ∘ fun b : ℚ => 2 * c - b) = id := by
      funext x
      simp
    rw [this, List.map_id]
  rw [List.map_append, hrr, List.reverse_append, List.reverse_cons]
  simp only [List.map_cons]
  have hc : 2 * c - c = c := by ring
  rw [hc]
  simp

/-- `_add_pml_to_bounds` with EQUAL layer counts on the two sides preserves
reflection symmetry about the center: for a palindromic input the first and
last cell widths coincide, and the two added PML ladders mirror each other. -/
theorem pml_palindrome (c : ℚ) (n : ℕ) (l : List ℚ)
    (hpal : l.map (fun b => 2 * c - b) = l.reverse) :
    (add_pml_to_bounds (n, n) l).map (fun b => 2 * c - b) =
      (add_pml_to_bounds (n, n) l).reverse := by
  rw [add_pml_to_bounds]
  by_cases hlen : l.length < 2
  · rw [if_pos hlen]
    exact hpal
  · rw [if_neg hlen]
    obtain ⟨x, y, l2, rfl⟩ : ∃ x y l2, l = x :: y :: l2 := by
      rcases l with _ | ⟨x, _ | ⟨y, l2⟩⟩
      · simp at hlen
      · simp at hlen
      · exact ⟨x, y, l2, rfl⟩
    have hfirst : firstGap (x :: y :: l2) = y - x := rfl
    have hlastg : lastGap (x :: y :: l2) = y - x := by
      rw [lastGap, ← hpal]
      simp only [List.map_cons]
      ring_nf
    have hbn : (x :: y :: l2).getLastD 0 = 2 * c - x := by
      rw [List.getLastD_eq_getLast?, List.getLast?_eq_head?_reverse, ← hpal]
      simp
    have heq1 : ((List.range n).map
          (fun i => (x :: y :: l2).headI - firstGap (x :: y :: l2) * ((n - i : ℕ) : ℚ))).map
          (fun b => 2 * c - b) =
        ((List.range n).map (fun i => (x :: y :: l2).getLastD 0 +
          lastGap (x :: y :: l2) * ((i + 1 : ℕ) : ℚ))).reverse := by
      rw [reverse_map_range, List.map_map]
      refine List.map_congr_left ?_
      intro i hi
      rw [List.mem_range] at hi
      simp only [Function.comp, hfirst, hlastg, hbn, List.headI]
      have hnat : ((n - 1 - i) + 1 : ℕ) = (n - i : ℕ) := by omega
      rw [hnat]
      ring
    have heq3 : ((List.range n).map (fun i => (x :: y :: l2).getLastD 0 +
          lastGap (x :: y :: l2) * ((i + 1 : ℕ) : ℚ))).map (fun b => 2 * c - b) =
        ((List.range n).map
          (fun i => (x :: y :: l2).headI - firstGap (x :: y :: l2) * ((n - i : ℕ) : ℚ))).reverse := by
      rw [reverse_map_range, List.map_map]
      refine List.map_congr_left ?_
      intro i hi
      rw [List.mem_range] at hi
      simp only [Function.comp, hfirst, hlastg, hbn, List.headI]
      have hnat : (n - (n - 1 - i) : ℕ) = (i + 1 : ℕ) := by omega
      rw [hnat]
      ring
    simp only [List.map_append, List.reverse_append]
    rw [heq1, heq3, hpal]
    simp [List.append_assoc]
/-- **C5.** For an axis with nonzero symmetry, `make_coords` (the shared tail
`_make_coords_from_initial`: symmetry folding then PML padding) applied to any
nonempty weakly increasing initial array, with ANY PML layer counts
`(n1, n2)`, returns an array that contains the domain center exactly; and
when the PML layer counts on the two sides are equal (`n1 = n2`), the array
is mapped onto its own reverse (hence onto itself up to ordering) by the
reflection `b ↦ 2·center - b` about the center.  The equal PML count proviso
on the reflection part is necessary: with asymmetric PML the reflection
property fails (see the counterexample). -/
theorem C5_symmetry_reflection (bound_coords : List ℚ) (center : ℚ) (symAxis : ℤ)
    (n1 n2 : ℕ) (hsym : symAxis ≠ 0) (hne : bound_coords ≠ [])
    (hsort : List.Pairwise (· ≤ ·) bound_coords) :
    center ∈ make_coords_from_initial bound_coords center symAxis (n1, n2) ∧
    (n1 = n2 →
      (make_coords_from_initial bound_coords center symAxis (n1, n2)).map
          (fun b => 2 * center - b) =
        (make_coords_from_initial bound_coords center symAxis (n1, n2)).reverse ∧
      ((make_coords_from_initial bound_coords center symAxis (n1, n2)).map
          (fun b => 2 * center - b)).Perm
        (make_coords_from_initial bound_coords center symAxis (n1, n2))) := by
  have hnv : nearestVal center bound_coords ∈ bound_coords := by
    match bound_coords, hne with
    | a :: t, _ => exact nearestVal_mem center a t
  have hcmem : center ∈ bound_coords.map
      (fun b => b + (center - nearestVal center bound_coords)) :=
    List.mem_map.mpr ⟨nearestVal center bound_coords, hnv, by ring⟩
  have hshift_sorted : List.Pairwise (· ≤ ·) (bound_coords.map
      (fun b => b + (center - nearestVal center bound_coords))) := by
    refine List.Pairwise.map _ ?_ hsort
    intro a b hab
    linarith
  have hkept_sorted : List.Pairwise (· ≤ ·) ((bound_coords.map
      (fun b => b + (center - nearestVal center bound_coords))).filter
      (fun b => decide (center ≤ b))) := hshift_sorted.filter _
  have hckept : center ∈ (bound_coords.map
      (fun b => b + (center - nearestVal center bound_coords))).filter
      (fun b => decide (center ≤ b)) := List.mem_filter.mpr ⟨hcmem, by simp⟩
  rcases hk : (bound_coords.map
      (fun b => b + (center - nearestVal center bound_coords))).filter
      (fun b => decide (center ≤ b)) with _ | ⟨k0, k'⟩
  · rw [hk] at hckept
    simp at hckept
  · have hk0 : k0 = center := by
      rw [hk] at hckept hkept_sorted
      have h1 : k0 ≤ center := by
        simpa using headI_le_mem_of_le _ hkept_sorted center hckept
      have hk0mem : k0 ∈ (bound_coords.map
          (fun b => b + (center - nearestVal center bound_coords))).filter
          (fun b => decide (center ≤ b)) := by
        rw [hk]
        exact List.mem_cons_self k0 k'
      have h2 : center ≤ k0 := by
        simpa using (List.mem_filter.mp hk0mem).2
      linarith
    subst hk0
    have hfold : symmetry_fold k0 bound_coords =
        (k'.reverse.map (fun b => 2 * k0 - b)) ++ (k0 :: k') := by
      rw [symmetry_fold]
      simp only [hk]
      simp
    have hmc : make_coords_from_initial bound_coords k0 symAxis (n1, n2) =
        add_pml_to_bounds (n1, n2)
          ((k'.reverse.map (fun b => 2 * k0 - b)) ++ (k0 :: k')) := by
      rw [make_coords_from_initial, if_pos hsym, hfold]
    have hcf : k0 ∈ (k'.reverse.map (fun b => 2 * k0 - b)) ++ (k0 :: k') :=
      List.mem_append.mpr (Or.inr (List.mem_cons_self k0 k'))
    have hcm : k0 ∈ add_pml_to_bounds (n1, n2)
        ((k'.reverse.map (fun b => 2 * k0 - b)) ++ (k0 :: k')) := by
      rw [add_pml_to_bounds]
      by_cases h2 : ((k'.reverse.map (fun b => 2 * k0 - b)) ++ (k0 :: k')).length < 2
      · rw [if_pos h2]
        exact hcf
      · rw [if_neg h2]
        simp only [List.mem_append] at hcf ⊢
        tauto
    refine ⟨?_, ?_⟩
    · rw [hmc]
      exact hcm
    · intro hnn
      subst hnn
      have hpalF : (add_pml_to_bounds (n1, n1)
            ((k'.reverse.map (fun b => 2 * k0 - b)) ++ (k0 :: k'))).map
            (fun b => 2 * k0 - b) =
          (add_pml_to_bounds (n1, n1)
            ((k'.reverse.map (fun b => 2 * k0 - b)) ++ (k0 :: k'))).reverse :=
        pml_palindrome k0 n1 _ (fold_palindrome k0 k')
      constructor
      · rw [hmc]
        exact hpalF
      · rw [hmc, hpalF]
        exact List.reverse_perm _
/-- C5 counterexample: a `UniformGrid(dl=1)` axis with symmetry 1, center 0,
size 2 and asymmetric PML `(1, 0)` layers yields boundaries `[-2, -1, 0, 1]`,
whose reflection about the center, `[2, 1, 0, -1]`, is NOT a permutation of
the array itself — the claim omits the equal-PML-count condition. -/
theorem C5_counterexample :
    GridType_make_coords (GridTypeE.uniform 1) 0 2 1 (1, 0) 0 =
      some [-2, -1, 0, 1] ∧
    ¬ (([-2, -1, 0, 1] : List ℚ).map (fun b => 2 * 0 - b)).Perm [-2, -1, 0, 1] := by
  constructor
  · have hceil : (⌈(2 : ℚ) / 1⌉ : ℤ) = 2 := by
      norm_num
    have hinit : make_coords_initial_uniform 1 0 2 = [-1, 0, 1] := by
      simp only [make_coords_initial_uniform, hceil]
      rw [show Int.toNat 2 = 2 from rfl]
      norm_num [List.range_succ]
    have hnv : nearestVal 0 [(-1 : ℚ), 0, 1] = 0 := by
      norm_num [nearestVal]
    have hfoldv : symmetry_fold 0 [(-1 : ℚ), 0, 1] = [-1, 0, 1] := by
      rw [symmetry_fold]
      rw [hnv]
      norm_num [List.filter]
    have hpml : add_pml_to_bounds (1, 0) [(-1 : ℚ), 0, 1] = [-2, -1, 0, 1] := by
      rw [add_pml_to_bounds]
      norm_num [firstGap, List.range_succ, List.headI]
    simp only [GridType_make_coords, hinit]
    simp only [make_coords_from_initial, Option.map_some']
    rw [if_pos (by norm_num : (1 : ℤ) ≠ 0), hfoldv, hpml]
  · intro h
    have hmap : ([-2, -1, 0, 1] : List ℚ).map (fun b => 2 * 0 - b) = [2, 1, 0, -1] := by
      norm_num
    rw [hmap] at h
    have h2 : (2 : ℚ) ∈ ([-2, -1, 0, 1] : List ℚ) :=
      h.mem_iff.mp (by norm_num)
    norm_num at h2

/-- C5 witness: center membership at a concrete input with UNEQUAL PML counts
`(1, 0)`, and the symmetry reflection at the same input with equal PML counts
`(1, 1)`. -/
theorem C5_witness :
    (1 : ℤ) ≠ 0 ∧ ([0, 1] : List ℚ) ≠ [] ∧
    List.Pairwise (· ≤ ·) ([0, 1] : List ℚ) ∧
    0 ∈ make_coords_from_initial [0, 1] 0 1 (1, 0) ∧
    0 ∈ make_coords_from_initial [0, 1] 0 1 (1, 1) ∧
    ((make_coords_from_initial [0, 1] 0 1 (1, 1)).map (fun b => 2 * 0 - b) =
        (make_coords_from_initial [0, 1] 0 1 (1, 1)).reverse ∧
      ((make_coords_from_initial [0, 1] 0 1 (1, 1)).map (fun b => 2 * 0 - b)).Perm
        (make_coords_from_initial [0, 1] 0 1 (1, 1))) :=
  ⟨one_ne_zero, by simp, by norm_num,
    (C5_symmetry_reflection [0, 1] 0 1 1 0 one_ne_zero (by simp) (by norm_num)).1,
    (C5_symmetry_reflection [0, 1] 0 1 1 1 one_ne_zero (by simp) (by norm_num)).1,
    (C5_symmetry_reflection [0, 1] 0 1 1 1 one_ne_zero (by simp) (by norm_num)).2 rfl⟩

/-- The first gap of a strictly increasing list of length at least 2 is
positive. -/
theorem firstGap_pos (l : List ℚ) (hs : List.Pairwise (· < ·) l) (h2 : 2 ≤ l.length) :
    0 < firstGap l := by
  match l, h2 with
  | a :: b :: t, _ =>
    rw [List.pairwise_cons] at hs
    have := hs.1 b (by simp)
    simp only [firstGap]
    linarith

/-- `getLastD` of an append with nonempty right part. -/
theorem getLastD_append_right (A B : List ℚ) (h : B ≠ []) :
    (A ++ B).getLastD 0 = B.getLastD 0 := by
  induction A with
  | nil => rfl
  | cons a A ih =>
    rw [List.cons_append, getLastD_cons_ne _ _ (by simp [h]), ih]

/-- `_add_pml_to_bounds` on a strictly increasing array of length at least 2:
the result is strictly increasing, still of length at least 2, and its
first/last entries extend (weakly) below/above the input's. -/
theorem add_pml_sorted (nm np_ : ℕ) (l : List ℚ) (hs : List.Pairwise (· < ·) l)
    (h2 : 2 ≤ l.length) :
    List.Pairwise (· < ·) (add_pml_to_bounds (nm, np_) l) ∧
    2 ≤ (add_pml_to_bounds (nm, np_) l).length ∧
    (add_pml_to_bounds (nm, np_) l).headI ≤ l.headI ∧
    l.getLastD 0 ≤ (add_pml_to_bounds (nm, np_) l).getLastD 0 := by
  have hfg : 0 < firstGap l := firstGap_pos l hs h2
  have hlg : 0 < lastGap l := lastGap_pos l hs h2
  have hne : l ≠ [] := by
    intro h
    subst h
    simp at h2
  rw [add_pml_eq nm np_ l h2]
  have hAsort : List.Pairwise (· < ·) ((List.range nm).map
      (fun i : ℕ => l.headI - firstGap l * ((nm - i : ℕ) : ℚ))) := by
    rw [List.pairwise_iff_getElem]
    intro i j hi hj hij
    simp only [List.length_map, List.length_range] at hi hj
    simp only [List.getElem_map, List.getElem_range]
    have hnat : (nm - j) < (nm - i) := by omega
    have hcast : ((nm - j : ℕ) : ℚ) < ((nm - i : ℕ) : ℚ) := by exact_mod_cast hnat
    nlinarith
  have hBsort : List.Pairwise (· < ·) ((List.range np_).map
      (fun i : ℕ => l.getLastD 0 + lastGap l * ((i + 1 : ℕ) : ℚ))) := by
    rw [List.pairwise_iff_getElem]
    intro i j hi hj hij
    simp only [List.length_map, List.length_range] at hi hj
    simp only [List.getElem_map, List.getElem_range]
    have hcast : ((i + 1 : ℕ) : ℚ) < ((j + 1 : ℕ) : ℚ) := by exact_mod_cast by omega
    nlinarith
  have hA_lt : ∀ x ∈ (List.range nm).map
      (fun i : ℕ => l.headI - firstGap l * ((nm - i : ℕ) : ℚ)), x < l.headI := by
    intro x hx
    obtain ⟨i, hi, rfl⟩ := List.mem_map.mp hx
    rw [List.mem_range] at hi
    have h1 : (1 : ℚ) ≤ ((nm - i : ℕ) : ℚ) := by exact_mod_cast by omega
    nlinarith
  have hB_gt : ∀ x ∈ (List.range np_).map
      (fun i : ℕ => l.getLastD 0 + lastGap l * ((i + 1 : ℕ) : ℚ)), l.getLastD 0 < x := by
    intro x hx
    obtain ⟨i, hi, rfl⟩ := List.mem_map.mp hx
    have h1 : (1 : ℚ) ≤ ((i + 1 : ℕ) : ℚ) := by exact_mod_cast by omega
    nlinarith
  have hlo : ∀ y ∈ l, l.headI ≤ y := fun y hy => headI_le_mem l hs y hy
  have hhi : ∀ y ∈ l, y ≤ l.getLastD 0 := fun y hy => mem_le_getLastD l hs y hy
  have h0n : l.headI ≤ l.getLastD 0 := hlo _ (getLastD_mem l hne)
  refine ⟨?_, ?_, ?_, ?_⟩
  · rw [List.pairwise_append]
    refine ⟨?_, hBsort, ?_⟩
    · rw [List.pairwise_append]
      refine ⟨hAsort, hs, ?_⟩
      intro x hx y hy
      exact lt_of_lt_of_le (hA_lt x hx) (hlo y hy)
    · intro x hx z hz
      rcases List.mem_append.mp hx with h1 | h1
      · exact lt_of_lt_of_le (hA_lt x h1) (le_trans h0n (hB_gt z hz).le)
      · exact lt_of_le_of_lt (hhi x h1) (hB_gt z hz)
  · simp only [List.length_append, List.length_map, List.length_range]
    omega
  · rcases Nat.eq_zero_or_pos nm with h0 | hpos
    · subst h0
      simp only [List.range_zero, List.map_nil, List.nil_append]
      match l, hne with
      | a :: t, _ => simp
    · rw [List.append_assoc]
      have hh : ((List.range nm).map
          (fun i : ℕ => l.headI - firstGap l * ((nm - i : ℕ) : ℚ)) ++
          (l ++ (List.range np_).map
            (fun i : ℕ => l.getLastD 0 + lastGap l * ((i + 1 : ℕ) : ℚ)))).headI =
          l.headI - firstGap l * ((nm : ℕ) : ℚ) := by
        rcases hr : (List.range nm).map
            (fun i : ℕ => l.headI - firstGap l * ((nm - i : ℕ) : ℚ)) with _ | ⟨a, t⟩
        · have := congrArg List.length hr
          simp at this
          omega
        · have ha : a = l.headI - firstGap l * ((nm : ℕ) : ℚ) := by
            have := headI_range_map
              (fun i : ℕ => l.headI - firstGap l * ((nm - i : ℕ) : ℚ)) hpos
            rw [hr] at this
            simpa using this
          simp [ha]
      rw [hh]
      have h1 : (1 : ℚ) ≤ ((nm : ℕ) : ℚ) := by exact_mod_cast hpos
      nlinarith
  · rcases Nat.eq_zero_or_pos np_ with h0 | hpos
    · subst h0
      simp only [List.range_zero, List.map_nil, List.append_nil]
      rw [getLastD_append_right _ _ hne]
    · rw [getLastD_append_right _ _ (by
        intro hcontra
        have hlenB := congrArg List.length hcontra
        simp at hlenB
        omega)]
      rw [getLastD_range_map _ hpos]
      have h1 : (1 : ℚ) ≤ ((np_ - 1 + 1 : ℕ) : ℚ) := by exact_mod_cast by omega
      nlinarith
/-- `np.argmin` first-occurrence semantics of `nearestVal`: the list splits
into a prefix of strictly worse entries, the selected entry, and a suffix,
and the selected entry minimises the distance to `c`. -/
theorem nearestVal_first_argmin (c : ℚ) : ∀ (t : List ℚ) (a : ℚ),
    ∃ l1 l2, a :: t = l1 ++ nearestVal c (a :: t) :: l2 ∧
      (∀ x ∈ l1, |c - nearestVal c (a :: t)| < |c - x|) ∧
      (∀ x ∈ a :: t, |c - nearestVal c (a :: t)| ≤ |c - x|) := by
  intro t
  induction t with
  | nil =>
    intro a
    refine ⟨[], [], by simp [nearestVal], by simp, ?_⟩
    intro x hx
    rw [List.mem_singleton] at hx
    subst hx
    simp [nearestVal]
  | cons b t2 ih =>
    intro a
    have hstep : nearestVal c (a :: b :: t2) =
        nearestVal c ((if |c - b| < |c - a| then b else a) :: t2) := by
      rw [nearestVal, nearestVal, List.foldl_cons]
    by_cases hc : |c - b| < |c - a|
    · rw [if_pos hc] at hstep
      obtain ⟨l1, l2, heq, hpre, hmin⟩ := ih b
      rw [← hstep] at heq hpre hmin
      refine ⟨a :: l1, l2, by rw [List.cons_append, ← heq], ?_, ?_⟩
      · intro x hx
        rcases List.mem_cons.mp hx with h1 | h1
        · subst h1
          exact lt_of_le_of_lt (hmin b (by simp)) hc
        · exact hpre x h1
      · intro x hx
        rcases List.mem_cons.mp hx with h1 | h1
        · subst h1
          exact le_of_lt (lt_of_le_of_lt (hmin b (by simp)) hc)
        · exact hmin x h1
    · rw [if_neg hc] at hstep
      push_neg at hc
      obtain ⟨l1, l2, heq, hpre, hmin⟩ := ih a
      rw [← hstep] at heq hpre hmin
      rcases l1 with _ | ⟨a', l1'⟩
      · simp only [List.nil_append] at heq
        have ha : nearestVal c (a :: b :: t2) = a := (List.cons_eq_cons.mp heq).1.symm
        refine ⟨[], b :: t2, by simp [ha], by simp, ?_⟩
        intro x hx
        rcases List.mem_cons.mp hx with h1 | h1
        · subst h1
          rw [ha]
        · rcases List.mem_cons.mp h1 with h2 | h2
          · subst h2
            rw [ha]
            exact hc
          · exact hmin x (by simp [h2])
      · have heq2 := List.cons_eq_cons.mp heq
        obtain ⟨haa, hteq⟩ := heq2
        have hamem : a ∈ a' :: l1' := by
          rw [← haa]
          exact List.mem_cons_self _ _
        refine ⟨a :: b :: l1', l2, ?_, ?_, ?_⟩
        · conv_lhs => rw [hteq]
          simp
        · intro y hy
          rcases List.mem_cons.mp hy with h1 | h1
          · subst h1
            exact hpre _ hamem
          · rcases List.mem_cons.mp h1 with h2 | h2
            · subst h2
              exact lt_of_lt_of_le (hpre _ hamem) hc
            · exact hpre _ (List.mem_cons_of_mem _ h2)
        · intro y hy
          rcases List.mem_cons.mp hy with h1 | h1
          · subst h1
            exact hmin _ (List.mem_cons_self _ _)
          · rcases List.mem_cons.mp h1 with h2 | h2
            · subst h2
              exact le_trans (hmin _ (List.mem_cons_self _ _)) hc
            · exact hmin _ (List.mem_cons_of_mem _ h2)
/-- On a weakly increasing list that is symmetric about `c` (membership is
closed under the reflection `x ↦ 2c - x`), the first-argmin nearest value is
at most `c`: its mirror ties in distance and sits earlier in the list. -/
theorem nearestVal_le_center (c a : ℚ) (t : List ℚ)
    (hs : List.Pairwise (· ≤ ·) (a :: t))
    (hpal : ∀ x ∈ a :: t, 2 * c - x ∈ a :: t) :
    nearestVal c (a :: t) ≤ c := by
  by_contra hgt
  push_neg at hgt
  obtain ⟨l1, l2, heq, hpre, hmin⟩ := nearestVal_first_argmin c t a
  set r := nearestVal c (a :: t) with hr
  have hrmem : r ∈ a :: t := by
    rw [heq]
    exact List.mem_append.mpr (Or.inr (List.mem_cons_self _ _))
  have hmmem : 2 * c - r ∈ a :: t := hpal _ hrmem
  have hmlt : 2 * c - r < r := by linarith
  have habs : |c - (2 * c - r)| = |c - r| := by
    rw [show c - (2 * c - r) = -(c - r) by ring, abs_neg]
  rw [heq] at hmmem
  rcases List.mem_append.mp hmmem with h1 | h1
  · have := hpre _ h1
    rw [habs] at this
    exact absurd this (lt_irrefl _)
  · rcases List.mem_cons.mp h1 with h2 | h2
    · linarith [hmlt, h2.symm.le]
    · have hsorted : ∀ y ∈ l2, nearestVal c (a :: t) ≤ y := by
        have := heq ▸ hs
        rw [List.pairwise_append] at this
        have hp2 := this.2.1
        rw [List.pairwise_cons] at hp2
        exact hp2.1
      have := hsorted _ h2
      linarith
/-- `headI` of an append with nonempty left part. -/
theorem headI_append_left (A B : List ℚ) (h : A ≠ []) : (A ++ B).headI = A.headI := by
  cases A with
  | nil => simp at h
  | cons a t => simp

/-- The head of the reverse of a nonempty list is its last entry. -/
theorem reverse_headI (l : List ℚ) (h : l ≠ []) : l.reverse.headI = l.getLastD 0 := by
  rcases hr : l.reverse with _ | ⟨a, t⟩
  · rw [List.reverse_eq_nil_iff] at hr
    exact absurd hr h
  · rw [List.getLastD_eq_getLast?, List.getLast?_eq_head?_reverse, hr]
    simp

/-- Shifting every entry shifts the last entry. -/
theorem getLastD_map_shift (l : List ℚ) (s : ℚ) (h : l ≠ []) :
    (l.map (fun b => b + s)).getLastD 0 = l.getLastD 0 + s := by
  rw [List.getLastD_eq_getLast?, List.getLastD_eq_getLast?, List.getLast?_map]
  rw [List.getLast?_eq_getLast l h]
  simp

/-- Symmetry folding of a strictly increasing array whose nearest-to-center
entry is at most the center and whose shifted maximum exceeds the center:
the folded array is strictly increasing with at least 2 entries, its last
entry is the shifted input maximum, and its first entry is that maximum
mirrored about the center. -/
theorem fold_coverage (c : ℚ) (bc : List ℚ) (hs : List.Pairwise (· < ·) bc)
    (hne : bc ≠ []) (hnv : nearestVal c bc ≤ c)
    (hmax : c < bc.getLastD 0 + (c - nearestVal c bc)) :
    List.Pairwise (· < ·) (symmetry_fold c bc) ∧
    2 ≤ (symmetry_fold c bc).length ∧
    (symmetry_fold c bc).headI = 2 * c - (bc.getLastD 0 + (c - nearestVal c bc)) ∧
    (symmetry_fold c bc).getLastD 0 = bc.getLastD 0 + (c - nearestVal c bc) := by
  have hnvmem : nearestVal c bc ∈ bc := by
    match bc, hne with
    | a :: t, _ => exact nearestVal_mem c a t
  have hshift_sorted : List.Pairwise (· < ·)
      (bc.map (fun b => b + (c - nearestVal c bc))) := by
    refine List.Pairwise.map _ ?_ hs
    intro a b hab
    linarith
  have hcmem : c ∈ bc.map (fun b => b + (c - nearestVal c bc)) :=
    List.mem_map.mpr ⟨nearestVal c bc, hnvmem, by ring⟩
  have hsmax : (bc.map (fun b => b + (c - nearestVal c bc))).getLastD 0 =
      bc.getLastD 0 + (c - nearestVal c bc) := getLastD_map_shift bc _ hne
  have hmapne : bc.map (fun b => b + (c - nearestVal c bc)) ≠ [] := by
    simp [hne]
  have hsmaxmem : bc.getLastD 0 + (c - nearestVal c bc) ∈
      bc.map (fun b => b + (c - nearestVal c bc)) := by
    rw [← hsmax]
    exact getLastD_mem _ hmapne
  have hkept_sorted : List.Pairwise (· < ·)
      ((bc.map (fun b => b + (c - nearestVal c bc))).filter
        (fun b => decide (c ≤ b))) := hshift_sorted.filter _
  have hckept : c ∈ (bc.map (fun b => b + (c - nearestVal c bc))).filter
      (fun b => decide (c ≤ b)) := List.mem_filter.mpr ⟨hcmem, by simp⟩
  have hsmaxkept : bc.getLastD 0 + (c - nearestVal c bc) ∈
      (bc.map (fun b => b + (c - nearestVal c bc))).filter
        (fun b => decide (c ≤ b)) :=
    List.mem_filter.mpr ⟨hsmaxmem, by simpa using hmax.le⟩
  rcases hk : (bc.map (fun b => b + (c - nearestVal c bc))).filter
      (fun b => decide (c ≤ b)) with _ | ⟨k0, k'⟩
  · rw [hk] at hckept
    simp at hckept
  · rw [hk] at hkept_sorted hckept hsmaxkept
    have hk0 : c = k0 := by
      have h1 : k0 ≤ c := by
        simpa using headI_le_mem _ hkept_sorted c hckept
      have hk0mem : k0 ∈ (bc.map (fun b => b + (c - nearestVal c bc))).filter
          (fun b => decide (c ≤ b)) := by
        rw [hk]
        exact List.mem_cons_self k0 k'
      have h2 : c ≤ k0 := by
        simpa using (List.mem_filter.mp hk0mem).2
      linarith
    subst hk0
    have hk'ne : k' ≠ [] := by
      intro hcon
      subst hcon
      rcases List.mem_cons.mp hsmaxkept with h1 | h1
      · linarith
      · simp at h1
    have hk'gt : ∀ x ∈ k', c < x := by
      rw [List.pairwise_cons] at hkept_sorted
      exact hkept_sorted.1
    have hkeptlast : (c :: k').getLastD 0 = bc.getLastD 0 + (c - nearestVal c bc) := by
      have hle1 : bc.getLastD 0 + (c - nearestVal c bc) ≤ (c :: k').getLastD 0 :=
        mem_le_getLastD _ hkept_sorted _ hsmaxkept
      have hlastmem : (c :: k').getLastD 0 ∈ (c :: k') := getLastD_mem _ (by simp)
      have hlastshift : (c :: k').getLastD 0 ∈
          bc.map (fun b => b + (c - nearestVal c bc)) := by
        have h3 : (c :: k').getLastD 0 ∈
            (bc.map (fun b => b + (c - nearestVal c bc))).filter
              (fun b => decide (c ≤ b)) := by
          rw [hk]
          exact hlastmem
        exact (List.mem_filter.mp h3).1
      have hle2 : (c :: k').getLastD 0 ≤ bc.getLastD 0 + (c - nearestVal c bc) := by
        rw [← hsmax]
        exact mem_le_getLastD _ hshift_sorted _ hlastshift
      linarith
    have hfold : symmetry_fold c bc =
        (k'.reverse.map (fun b => 2 * c - b)) ++ (c :: k') := by
      rw [symmetry_fold]
      simp only [hk]
      simp
    have hmirror_ne : k'.reverse.map (fun b => 2 * c - b) ≠ [] := by
      simp [hk'ne]
    have hk'last : k'.getLastD 0 = bc.getLastD 0 + (c - nearestVal c bc) := by
      rw [← hkeptlast, getLastD_cons_ne _ _ hk'ne]
    refine ⟨?_, ?_, ?_, ?_⟩
    · rw [hfold, List.pairwise_append]
      refine ⟨?_, hkept_sorted, ?_⟩
      · rw [List.pairwise_map]
        rw [List.pairwise_reverse]
        rw [List.pairwise_cons] at hkept_sorted
        exact hkept_sorted.2.imp (fun hab => by linarith)
      · intro x hx y hy
        obtain ⟨z, hz, rfl⟩ := List.mem_map.mp hx
        rw [List.mem_reverse] at hz
        have hzgt : c < z := hk'gt z hz
        have hyge : c ≤ y := by
          rcases List.mem_cons.mp hy with h1 | h1
          · exact h1.symm.le
          · exact (hk'gt y h1).le
        linarith
    · rw [hfold]
      simp only [List.length_append, List.length_map, List.length_reverse,
        List.length_cons]
      have : 1 ≤ k'.length := by
        cases k' with
        | nil => exact absurd rfl hk'ne
        | cons a t => simp
      omega
    · rw [hfold, headI_append_left _ _ hmirror_ne]
      rcases hr : k'.reverse with _ | ⟨a, t⟩
      · rw [List.reverse_eq_nil_iff] at hr
        exact absurd hr hk'ne
      · have ha : a = k'.getLastD 0 := by
          have := reverse_headI k' hk'ne
          rw [hr] at this
          simpa using this
        simp only [List.map_cons, List.headI]
        rw [ha, hk'last]
    · rw [hfold, getLastD_append_right _ _ (by simp), hkeptlast]
/-- An affine map with positive step over `List.range` is strictly
increasing. -/
theorem affine_range_sorted (c0 d : ℚ) (n : ℕ) (hd : 0 < d) :
    List.Pairwise (· < ·) ((List.range (n + 1)).map (fun i : ℕ => c0 + (i : ℚ) * d)) := by
  rw [List.pairwise_iff_getElem]
  intro i j hi hj hij
  simp only [List.length_map, List.length_range] at hi hj
  simp only [List.getElem_map, List.getElem_range]
  have hcast : ((i : ℕ) : ℚ) < ((j : ℕ) : ℚ) := by exact_mod_cast hij
  nlinarith

/-- The affine array over `range (n+1)` is symmetric about its midpoint:
membership is closed under the reflection about `c0 + n*d/2`. -/
theorem affine_range_palindrome (c0 d : ℚ) (n : ℕ) :
    ∀ x ∈ (List.range (n + 1)).map (fun i : ℕ => c0 + (i : ℚ) * d),
      2 * (c0 + (n : ℚ) * d / 2) - x ∈
        (List.range (n + 1)).map (fun i : ℕ => c0 + (i : ℚ) * d) := by
  intro x hx
  obtain ⟨i, hi, rfl⟩ := List.mem_map.mp hx
  rw [List.mem_range] at hi
  refine List.mem_map.mpr ⟨n - i, List.mem_range.mpr (by omega), ?_⟩
  have hcast : ((n - i : ℕ) : ℚ) = (n : ℚ) - (i : ℚ) := by
    exact_mod_cast Nat.cast_sub (by omega : i ≤ n)
  rw [hcast]
  ring

/-- `UniformGrid._make_coords_initial` for positive `dl` and nonnegative
size: the array is strictly increasing with at least 2 entries, starts
exactly at `center - size/2`, ends at or above `center + size/2` (strictly
above `center`), and its nearest-to-center entry is at most the center. -/
theorem uniform_initial_props (dl c S : ℚ) (hdl : 0 < dl) (hS : 0 ≤ S) :
    List.Pairwise (· < ·) (make_coords_initial_uniform dl c S) ∧
    make_coords_initial_uniform dl c S ≠ [] ∧
    (make_coords_initial_uniform dl c S).headI = c - S / 2 ∧
    c + S / 2 ≤ (make_coords_initial_uniform dl c S).getLastD 0 ∧
    nearestVal c (make_coords_initial_uniform dl c S) ≤ c ∧
    2 ≤ (make_coords_initial_uniform dl c S).length ∧
    c < (make_coords_initial_uniform dl c S).getLastD 0 := by
  by_cases hpos : 0 < S
  · have hmc : make_coords_initial_uniform dl c S =
        (List.range (max 1 (Int.toNat ⌈S / dl⌉) + 1)).map
          (fun i : ℕ => c - S / 2 + (i : ℚ) *
            (S / ((max 1 (Int.toNat ⌈S / dl⌉) : ℕ) : ℚ))) := by
      simp only [make_coords_initial_uniform, if_pos hpos]
    have hn : 0 < max 1 (Int.toNat ⌈S / dl⌉) := by omega
    have hnq : (0 : ℚ) < ((max 1 (Int.toNat ⌈S / dl⌉) : ℕ) : ℚ) := by
      exact_mod_cast hn
    have hd : 0 < S / ((max 1 (Int.toNat ⌈S / dl⌉) : ℕ) : ℚ) := by positivity
    have hnd : ((max 1 (Int.toNat ⌈S / dl⌉) : ℕ) : ℚ) *
        (S / ((max 1 (Int.toNat ⌈S / dl⌉) : ℕ) : ℚ)) = S := by
      field_simp
    have hsorted := affine_range_sorted (c - S / 2)
      (S / ((max 1 (Int.toNat ⌈S / dl⌉) : ℕ) : ℚ)) (max 1 (Int.toNat ⌈S / dl⌉)) hd
    have hne : (List.range (max 1 (Int.toNat ⌈S / dl⌉) + 1)).map
        (fun i : ℕ => c - S / 2 + (i : ℚ) *
          (S / ((max 1 (Int.toNat ⌈S / dl⌉) : ℕ) : ℚ))) ≠ [] := by
      simp
    have hhead := headI_range_map
      (fun i : ℕ => c - S / 2 + (i : ℚ) * (S / ((max 1 (Int.toNat ⌈S / dl⌉) : ℕ) : ℚ)))
      (by omega : 0 < max 1 (Int.toNat ⌈S / dl⌉) + 1)
    have hlast := getLastD_range_map
      (fun i : ℕ => c - S / 2 + (i : ℚ) * (S / ((max 1 (Int.toNat ⌈S / dl⌉) : ℕ) : ℚ)))
      (by omega : 0 < max 1 (Int.toNat ⌈S / dl⌉) + 1)
    have hctr : c - S / 2 + ((max 1 (Int.toNat ⌈S / dl⌉) : ℕ) : ℚ) *
        (S / ((max 1 (Int.toNat ⌈S / dl⌉) : ℕ) : ℚ)) / 2 = c := by
      rw [hnd]
      ring
    have hnv : nearestVal c (make_coords_initial_uniform dl c S) ≤ c := by
      rw [hmc]
      rcases hm : (List.range (max 1 (Int.toNat ⌈S / dl⌉) + 1)).map
          (fun i : ℕ => c - S / 2 + (i : ℚ) *
            (S / ((max 1 (Int.toNat ⌈S / dl⌉) : ℕ) : ℚ))) with _ | ⟨a, t⟩
      · exact absurd hm hne
      · refine nearestVal_le_center c a t ?_ ?_
        · rw [← hm]
          exact hsorted.imp le_of_lt
        · rw [← hm]
          intro x hx
          have h2 := affine_range_palindrome (c - S / 2)
            (S / ((max 1 (Int.toNat ⌈S / dl⌉) : ℕ) : ℚ)) (max 1 (Int.toNat ⌈S / dl⌉)) x hx
          rw [hnd] at h2
          have hxeq : 2 * c - x = 2 * (c - S / 2 + S / 2) - x := by ring
          rw [hxeq]
          exact h2
    have hlastval : c + S / 2 ≤ (make_coords_initial_uniform dl c S).getLastD 0 := by
      rw [hmc, hlast]
      simp only [Nat.add_sub_cancel]
      rw [hnd]
      linarith
    refine ⟨by rw [hmc]; exact hsorted, by rw [hmc]; exact hne, ?_, hlastval, hnv, ?_, ?_⟩
    · rw [hmc, hhead]
      norm_num
    · rw [hmc]
      simp only [List.length_map, List.length_range]
      omega
    · linarith
  · have hS0 : S = 0 := le_antisymm (not_lt.mp hpos) hS
    subst hS0
    have hmc : make_coords_initial_uniform dl c 0 = [c - 0 / 2 + (0 : ℚ) * dl,
        c - 0 / 2 + (1 : ℚ) * dl] := by
      simp only [make_coords_initial_uniform]
      norm_num [List.range_succ]
    rw [hmc]
    refine ⟨?_, by simp, by norm_num, by norm_num; nlinarith, ?_, by simp, by norm_num; nlinarith⟩
    · refine List.pairwise_cons.mpr ⟨?_, List.pairwise_singleton _ _⟩
      intro x hx
      rw [List.mem_singleton] at hx
      subst hx
      nlinarith
    · rw [nearestVal]
      have : ¬(|c - (c - 0 / 2 + (1 : ℚ) * dl)| < |c - (c - 0 / 2 + (0 : ℚ) * dl)|) := by
        rw [show c - (c - 0 / 2 + (1 : ℚ) * dl) = -dl by ring,
          show c - (c - 0 / 2 + (0 : ℚ) * dl) = 0 by ring]
        simp [abs_of_pos hdl]
        linarith
      rw [List.foldl_cons, if_neg this]
      simp only [List.foldl_nil]
      linarith
/-- A `UniformGrid` axis through the full `make_coords` pipeline (initial
array, optional symmetry folding, PML padding) yields a strictly increasing
boundary array of length at least 2 covering `[center - size/2,
center + size/2]`. -/
theorem uniform_axis_coverage (dl c S : ℚ) (symAxis : ℤ) (nm np_ : ℕ) (eps : ℚ)
    (hdl : 0 < dl) (hS : 0 ≤ S) :
    ∃ l, GridType_make_coords (GridTypeE.uniform dl) c S symAxis (nm, np_) eps = some l ∧
      List.Pairwise (· < ·) l ∧ 2 ≤ l.length ∧
      l.headI ≤ c - S / 2 ∧ c + S / 2 ≤ l.getLastD 0 := by
  obtain ⟨hsorted, hne, hhead, hlastge, hnv, hlen2, hlastgt⟩ :=
    uniform_initial_props dl c S hdl hS
  have hunfold : GridType_make_coords (GridTypeE.uniform dl) c S symAxis (nm, np_) eps =
      some (make_coords_from_initial (make_coords_initial_uniform dl c S) c symAxis
        (nm, np_)) := by
    simp only [GridType_make_coords, Option.map_some']
  by_cases hsym : symAxis ≠ 0
  · have hmax : c < (make_coords_initial_uniform dl c S).getLastD 0 +
        (c - nearestVal c (make_coords_initial_uniform dl c S)) := by
      linarith
    obtain ⟨hfs, hfl, hfh, hflast⟩ :=
      fold_coverage c (make_coords_initial_uniform dl c S) hsorted hne hnv hmax
    obtain ⟨hps, hpl, hph, hplast⟩ :=
      add_pml_sorted nm np_ (symmetry_fold c (make_coords_initial_uniform dl c S)) hfs hfl
    refine ⟨add_pml_to_bounds (nm, np_)
      (symmetry_fold c (make_coords_initial_uniform dl c S)), ?_, hps, hpl, ?_, ?_⟩
    · rw [hunfold]
      rw [make_coords_from_initial, if_pos hsym]
    · rw [hfh] at hph
      linarith
    · rw [hflast] at hplast
      linarith
  · push_neg at hsym
    obtain ⟨hps, hpl, hph, hplast⟩ :=
      add_pml_sorted nm np_ (make_coords_initial_uniform dl c S) hsorted hlen2
    refine ⟨add_pml_to_bounds (nm, np_) (make_coords_initial_uniform dl c S),
      ?_, hps, hpl, ?_, ?_⟩
    · rw [hunfold]
      rw [make_coords_from_initial, if_neg (by simp [hsym])]
    · rw [hhead] at hph
      linarith
    · linarith
/-- **C1.** For a `GridSpec` whose three axes are all `UniformGrid` with
positive steps, on a simulation box with nonnegative sizes, `make_grid`
succeeds and each of the three returned boundary arrays has length at least
2, is strictly increasing, and covers the simulation domain: the first
boundary is at most the domain minimum and the last at least the domain
maximum, for any symmetry and any PML layer counts.  The claim's universal
coverage statement is amended to UniformGrid axes: custom-grid axes can
leave the domain under-covered (see the counterexample). -/
theorem C1_uniform_grid_coverage (dlx dly dlz : ℚ) (wl : Option ℚ)
    (ovr : List StructureE) (snaps : List OV3) (ctr : V3) (sx sy sz : ℚ)
    (rest : List StructureE) (sym : ℤ × ℤ × ℤ) (sources : List ℚ)
    (nx1 nx2 ny1 ny2 nz1 nz2 : ℕ) (eps : ℚ)
    (hdx : 0 < dlx) (hdy : 0 < dly) (hdz : 0 < dlz)
    (hsx : 0 ≤ sx) (hsy : 0 ≤ sy) (hsz : 0 ≤ sz) :
    ∃ bx by_ bz,
      make_grid ⟨GridTypeE.uniform dlx, GridTypeE.uniform dly, GridTypeE.uniform dlz,
          wl, ovr, snaps⟩
        (StructureE.physical ⟨ctr, ⟨some sx, some sy, some sz⟩⟩ :: rest) sym sources
        ((nx1, nx2), (ny1, ny2), (nz1, nz2)) eps = Except.ok (bx, by_, bz) ∧
      (2 ≤ bx.length ∧ List.Pairwise (· < ·) bx ∧
        bx.headI ≤ ctr.x - sx / 2 ∧ ctr.x + sx / 2 ≤ bx.getLastD 0) ∧
      (2 ≤ by_.length ∧ List.Pairwise (· < ·) by_ ∧
        by_.headI ≤ ctr.y - sy / 2 ∧ ctr.y + sy / 2 ≤ by_.getLastD 0) ∧
      (2 ≤ bz.length ∧ List.Pairwise (· < ·) bz ∧
        bz.headI ≤ ctr.z - sz / 2 ∧ ctr.z + sz / 2 ≤ bz.getLastD 0) := by
  obtain ⟨bx, hbx, hbxs, hbxl, hbxh, hbxlast⟩ :=
    uniform_axis_coverage dlx ctr.x sx sym.1 nx1 nx2 eps hdx hsx
  obtain ⟨by_, hby, hbys, hbyl, hbyh, hbylast⟩ :=
    uniform_axis_coverage dly ctr.y sy sym.2.1 ny1 ny2 eps hdy hsy
  obtain ⟨bz, hbz, hbzs, hbzl, hbzh, hbzlast⟩ :=
    uniform_axis_coverage dlz ctr.z sz sym.2.2 nz1 nz2 eps hdz hsz
  have hwl : get_wavelength ⟨GridTypeE.uniform dlx, GridTypeE.uniform dly,
      GridTypeE.uniform dlz, wl, ovr, snaps⟩ sources = Except.ok wl := by
    rw [get_wavelength]
    simp [GridSpecE.auto_grid_used]
  refine ⟨bx, by_, bz, ?_, ⟨hbxl, hbxs, hbxh, hbxlast⟩,
    ⟨hbyl, hbys, hbyh, hbylast⟩, ⟨hbzl, hbzs, hbzh, hbzlast⟩⟩
  simp only [make_grid, hwl, List.cons_append, StructureE.geometryOf]
  simp only [hbx, hby, hbz]
/-- Concrete evaluation of `_postprocess_unaligned_grid` on the boundaries
`[-2/5, 2/5]` over the unit domain: returned unchanged. -/
theorem postprocess_half_eval :
    postprocess_unaligned_grid 0 0 1 false [-(2/5 : ℚ), 2/5] =
      PostResult.ok [-(2/5 : ℚ), 2/5] := by
  have hcl : (([-(2/5 : ℚ), 2/5]).filter (fun x => decide (x ≤ 0 + 1 / 2 + 0))).filter
      (fun x => decide (0 - 1 / 2 - 0 ≤ x)) = [-(2/5 : ℚ), 2/5] := by
    norm_num [List.filter]
  have hgap : lastGap [-(2/5 : ℚ), 2/5] = 4/5 := by
    norm_num [lastGap]
  have hlastD : ([-(2/5 : ℚ), 2/5]).getLastD 0 = 2/5 := by
    norm_num
  have hceil1 : (⌈((-(2/5 : ℚ)) - ((0 : ℚ) - 1 / 2 - 0)) / ((2/5 : ℚ) - -(2/5))⌉ : ℤ) = 1 := by
    rw [Int.ceil_eq_iff]
    constructor <;> norm_num
  have hceil2 : (⌈(((0 : ℚ) + 1 / 2 + 0) - ([-(2/5 : ℚ), 2/5]).getLastD 0) /
      lastGap [-(2/5 : ℚ), 2/5]⌉ : ℤ) = 1 := by
    rw [hlastD, hgap, Int.ceil_eq_iff]
    constructor <;> norm_num
  have hlow : extend_low ((2/5 : ℚ) - -(2/5)) ((0 : ℚ) - 1 / 2 - 0) [-(2/5 : ℚ), 2/5] =
      [-(2/5 : ℚ), 2/5] := by
    rw [extend_low]
    rw [hceil1]
    rw [show Int.toNat 1 + 1 = 2 from rfl]
    rw [extendLowFuel, if_neg (by norm_num)]
  have hhigh : extend_high (lastGap [-(2/5 : ℚ), 2/5]) ((0 : ℚ) + 1 / 2 + 0)
      [-(2/5 : ℚ), 2/5] = [-(2/5 : ℚ), 2/5] := by
    rw [extend_high]
    rw [hceil2]
    rw [show Int.toNat 1 + 1 = 2 from rfl]
    rw [extendHighFuel, if_neg (by rw [hlastD, hgap]; norm_num)]
  simp only [postprocess_unaligned_grid]
  rw [if_neg (by rw [hlastD]; norm_num), if_neg (by norm_num : (1 : ℚ) ≠ 0)]
  simp only [hcl]
  rw [if_neg (by rw [hgap]; norm_num), hlow, hhigh, if_neg Bool.false_ne_true]

/-- `_add_pml_to_bounds` with zero layers on both sides is the identity. -/
theorem add_pml_zero_zero (l : List ℚ) (h2 : 2 ≤ l.length) :
    add_pml_to_bounds (0, 0) l = l := by
  rw [add_pml_eq 0 0 l h2]
  simp

/-- C1 counterexample: `make_grid` succeeds on `gsC1` (custom x boundaries
`[-2/5, 2/5]`, unit domain) but the first x boundary `-2/5` is strictly
greater than the domain minimum `-1/2`, so a successful grid does NOT always
satisfy `boundaries[axis][0] <= domain_min[axis]`. -/
theorem C1_counterexample :
    make_grid gsC1 [domUnit] (0, 0, 0) [] ((0, 0), (0, 0), (0, 0)) 0 =
      Except.ok ([-(2/5 : ℚ), 2/5], [-(1/2 : ℚ), 1/2], [-(1/2 : ℚ), 1/2]) ∧
    (0 : ℚ) - 1 / 2 < ([-(2/5 : ℚ), 2/5] : List ℚ).headI := by
  constructor
  · have hwl : get_wavelength ⟨GridTypeE.customBoundaries [-(2/5 : ℚ), 2/5],
        GridTypeE.uniform 1, GridTypeE.uniform 1, some 1, [], []⟩ [] =
        Except.ok (some 1) := by
      rw [get_wavelength]
      simp [GridSpecE.auto_grid_used]
    have hx : GridType_make_coords (GridTypeE.customBoundaries [-(2/5 : ℚ), 2/5])
        0 1 0 (0, 0) 0 = some [-(2/5 : ℚ), 2/5] := by
      simp only [GridType_make_coords, postprocess_half_eval]
      simp only [make_coords_from_initial, Option.map_some']
      rw [if_neg (by simp), add_pml_zero_zero _ (by simp)]
    have hinit : make_coords_initial_uniform 1 0 1 = [-(1/2 : ℚ), 1/2] := by
      have hceil : (⌈(1 : ℚ) / 1⌉ : ℤ) = 1 := by norm_num
      simp only [make_coords_initial_uniform, hceil]
      rw [show Int.toNat 1 = 1 from rfl]
      norm_num [List.range_succ]
    have hy : GridType_make_coords (GridTypeE.uniform 1) 0 1 0 (0, 0) 0 =
        some [-(1/2 : ℚ), 1/2] := by
      simp only [GridType_make_coords, hinit]
      simp only [make_coords_from_initial, Option.map_some']
      rw [if_neg (by simp), add_pml_zero_zero _ (by simp)]
    simp only [make_grid, gsC1, List.cons_append, List.nil_append, domUnit,
      StructureE.geometryOf]
    simp only [hwl, hx, hy]
  · norm_num

/-- C1 witness: the all-uniform coverage at a concrete input. -/
theorem C1_witness :
    (0 : ℚ) < 1 ∧ (0 : ℚ) ≤ 2 ∧
    (∃ bx by_ bz,
      make_grid ⟨GridTypeE.uniform 1, GridTypeE.uniform 1, GridTypeE.uniform 1,
          none, [], []⟩
        (StructureE.physical ⟨⟨0, 0, 0⟩, ⟨some 2, some 2, some 2⟩⟩ :: []) (0, 0, 0) []
        ((1, 1), (1, 1), (1, 1)) 0 = Except.ok (bx, by_, bz) ∧
      (2 ≤ bx.length ∧ List.Pairwise (· < ·) bx ∧
        bx.headI ≤ (⟨0, 0, 0⟩ : V3).x - 2 / 2 ∧
        (⟨0, 0, 0⟩ : V3).x + 2 / 2 ≤ bx.getLastD 0) ∧
      (2 ≤ by_.length ∧ List.Pairwise (· < ·) by_ ∧
        by_.headI ≤ (⟨0, 0, 0⟩ : V3).y - 2 / 2 ∧
        (⟨0, 0, 0⟩ : V3).y + 2 / 2 ≤ by_.getLastD 0) ∧
      (2 ≤ bz.length ∧ List.Pairwise (· < ·) bz ∧
        bz.headI ≤ (⟨0, 0, 0⟩ : V3).z - 2 / 2 ∧
        (⟨0, 0, 0⟩ : V3).z + 2 / 2 ≤ bz.getLastD 0)) :=
  ⟨by norm_num, by norm_num,
    C1_uniform_grid_coverage 1 1 1 none [] [] ⟨0, 0, 0⟩ 2 2 2 [] (0, 0, 0) []
      1 1 1 1 1 1 0 (by norm_num) (by norm_num) (by norm_num)
      (by norm_num) (by norm_num) (by norm_num)⟩

end GridSpecVerif
